import Mathlib

/-!
Verification development for the rs-ts-lsp-server scanner and renderer.

The development shallowly embeds the two core source files:
* `src/src/token.rs` — the token catalog (`Token`, `find_match`), the
  canonical-fragment map (`token_fragment`, `escape_string` and friends) and
  the renderer (`needs_separator`, `tokens_to_source`);
* `src/src/lexer.rs` — the scanner (`Lexer::lex`), embedded as `lex` with its
  per-category scanning loops split into named helper functions
  (`takeWs`, `takeLineComment`, `takeBlock`, `takeStr`, `takeNum`,
  `takeIdent`, operator longest-match via `tryMatchOp`).

Strings are modelled as `List Char` (the Rust code iterates `chars()`), and
the `u32` line/column counters as `Nat` (no claim concerns counter overflow).

The lexer in the source constructs the trivia variants
(`SingleLineCommentTrivia`, `MultiLineCommentTrivia`, `WhitespaceTrivia`)
with their exact original text as payload; the spec calls these the
text-preserving trivia variants and declares them authoritative over the
payload-less variants declared in `token.rs`.  The `Token` type below
therefore carries those payloads, as the lexer builds them.
-/

/-- `Token` (src/src/token.rs:5-195), with the text-preserving trivia
variants the lexer actually constructs (src/src/lexer.rs:34-126).
`Type` is a reserved word in Lean, so that one constructor is escaped. -/
inductive Token where
  | Illegal
  | Eof
  | SingleLineCommentTrivia (text : List Char)
  | MultiLineCommentTrivia (text : List Char)
  | NewLineTrivia
  | WhitespaceTrivia (text : List Char)
  | ShebangTrivia
  | ConflictMarkerTrivia
  | Identifier (name : List Char)
  | PrivateIdentifier (name : List Char)
  | NumericLiteral (value : List Char)
  | BigIntLiteral (value : List Char)
  | StringLiteral (value : List Char)
  | RegularExpressionLiteral (body : List Char)
  | NoSubstitutionTemplateLiteral (value : List Char)
  | TemplateHead (value : List Char)
  | TemplateMiddle (value : List Char)
  | TemplateTail (value : List Char)
  | JsxText (value : List Char)
  | JsxTextAllWhiteSpaces (value : List Char)
  | Comma
  | Semicolon
  | Colon
  | Dot
  | OpenParen
  | CloseParen
  | OpenBrace
  | CloseBrace
  | OpenBracket
  | CloseBracket
  | DotDotDot
  | QuestionDot
  | LessThan
  | LessThanSlash
  | GreaterThan
  | LessThanEquals
  | GreaterThanEquals
  | EqualsEquals
  | ExclamationEquals
  | EqualsEqualsEquals
  | ExclamationEqualsEquals
  | EqualsGreaterThan
  | Plus
  | Minus
  | Asterisk
  | AsteriskAsterisk
  | Slash
  | Percent
  | PlusPlus
  | MinusMinus
  | LessThanLessThan
  | GreaterThanGreaterThan
  | GreaterThanGreaterThanGreaterThan
  | Ampersand
  | Bar
  | Caret
  | Bang
  | Tilde
  | AmpersandAmpersand
  | BarBar
  | Question
  | At
  | QuestionQuestion
  | Hash
  | Equals
  | PlusEquals
  | MinusEquals
  | AsteriskEquals
  | AsteriskAsteriskEquals
  | SlashEquals
  | PercentEquals
  | LessThanLessThanEquals
  | GreaterThanGreaterThanEquals
  | GreaterThanGreaterThanGreaterThanEquals
  | AmpersandEquals
  | BarEquals
  | CaretEquals
  | BarBarEquals
  | AmpersandAmpersandEquals
  | QuestionQuestionEquals
  | Break
  | Case
  | Catch
  | Class
  | Const
  | Continue
  | Debugger
  | Default
  | Delete
  | Do
  | Else
  | Enum
  | Export
  | Extends
  | False
  | Finally
  | For
  | Function
  | If
  | Import
  | In
  | InstanceOf
  | New
  | Null
  | Return
  | Super
  | Switch
  | This
  | Throw
  | True
  | Try
  | TypeOf
  | Var
  | Void
  | While
  | With
  | Implements
  | Interface
  | Let
  | Package
  | Private
  | Protected
  | Public
  | Static
  | Yield
  | Abstract
  | As
  | Asserts
  | Any
  | Async
  | Await
  | Boolean
  | Constructor
  | Declare
  | Get
  | Infer
  | Is
  | KeyOf
  | Module
  | Namespace
  | Never
  | Readonly
  | Require
  | Number
  | Object
  | Set
  | «Type»
  | Undefined
  | Unique
  | Unknown
  | From
  | Global
  | BigInt
  | Of
  | Satisfies
  | Override
  | Using
  | String
  | Symbol
deriving Repr

/-- `SpannedToken` (src/src/token.rs:197-202); `u32` positions as `Nat`. -/
structure SpannedToken where
  value : Token
  line : Nat
  column : Nat
deriving Repr

/-- Rust `char::is_whitespace` — the Unicode `White_Space` property. -/
def rustIsWhitespace (c : Char) : Bool :=
  decide (c.toNat = 0x09 ∨ c.toNat = 0x0A ∨ c.toNat = 0x0B ∨ c.toNat = 0x0C ∨
    c.toNat = 0x0D ∨ c.toNat = 0x20 ∨ c.toNat = 0x85 ∨ c.toNat = 0xA0 ∨
    c.toNat = 0x1680 ∨ (0x2000 ≤ c.toNat ∧ c.toNat ≤ 0x200A) ∨
    c.toNat = 0x2028 ∨ c.toNat = 0x2029 ∨ c.toNat = 0x202F ∨
    c.toNat = 0x205F ∨ c.toNat = 0x3000)

/-- Rust `char::is_ascii_digit`. -/
def is_ascii_digit (c : Char) : Bool :=
  decide (0x30 ≤ c.toNat ∧ c.toNat ≤ 0x39)

/-- Rust `char::is_ascii_alphabetic`. -/
def is_ascii_alphabetic (c : Char) : Bool :=
  decide ((0x41 ≤ c.toNat ∧ c.toNat ≤ 0x5A) ∨ (0x61 ≤ c.toNat ∧ c.toNat ≤ 0x7A))

/-- Rust `char::is_ascii_alphanumeric`. -/
def is_ascii_alphanumeric (c : Char) : Bool :=
  is_ascii_alphabetic c || is_ascii_digit c

/-- The lexer's identifier-start test:
`ch.is_ascii_alphabetic() || ch == '_' || ch == '$'` (src/src/lexer.rs:222). -/
def identStart (c : Char) : Bool :=
  is_ascii_alphabetic c || decide (c = '_') || decide (c = '$')

/-- The lexer's identifier-continuation test:
`c.is_ascii_alphanumeric() || c == '_' || c == '$'` (src/src/lexer.rs:225). -/
def identCont (c : Char) : Bool :=
  is_ascii_alphanumeric c || decide (c = '_') || decide (c = '$')

/-- Whitespace-run collection (src/src/lexer.rs:44-53): consecutive
non-newline whitespace; returns the run and the unconsumed rest. -/
def takeWs : List Char → List Char × List Char
  | [] => ([], [])
  | c :: cs =>
    if c = '\n' ∨ rustIsWhitespace c = false then ([], c :: cs)
    else ((c :: (takeWs cs).1), (takeWs cs).2)

/-- Single-line comment body collection (src/src/lexer.rs:72-79): consume up
to (not including) the next newline or end of input. -/
def takeLineComment : List Char → List Char × List Char
  | [] => ([], [])
  | c :: cs =>
    if c = '\n' then ([], c :: cs)
    else ((c :: (takeLineComment cs).1), (takeLineComment cs).2)

/-- Multi-line comment loop with nesting depth (src/src/lexer.rs:92-121).
Returns (consumed comment text, rest, line, column); the column is advanced
by one per loop iteration even when `*/` or `/*` consumes two characters,
exactly as in the source. -/
def takeBlock : List Char → Nat → Nat → Nat → List Char × List Char × Nat × Nat
  | [], _, line, col => ([], [], line, col)
  | '\n' :: cs, depth, line, _ =>
    let r := takeBlock cs depth (line + 1) 1
    ('\n' :: r.1, r.2.1, r.2.2.1, r.2.2.2)
  | '*' :: '/' :: cs, depth, line, col =>
    if depth - 1 = 0 then (['*', '/'], cs, line, col + 1)
    else
      let r := takeBlock cs (depth - 1) line (col + 1)
      ('*' :: '/' :: r.1, r.2.1, r.2.2.1, r.2.2.2)
  | '/' :: '*' :: cs, depth, line, col =>
    let r := takeBlock cs (depth + 1) line (col + 1)
    ('/' :: '*' :: r.1, r.2.1, r.2.2.1, r.2.2.2)
  | c :: cs, depth, line, col =>
    let r := takeBlock cs depth line (col + 1)
    (c :: r.1, r.2.1, r.2.2.1, r.2.2.2)

/-- The scanner's string-escape resolution (src/src/lexer.rs:141-149). -/
def unescapeChar (c : Char) : Char :=
  if c = 'n' then '\n'
  else if c = 't' then '\t'
  else if c = 'r' then '\r'
  else if c = '\\' then '\\'
  else if c = '"' then '"'
  else if c = '\'' then '\''
  else c

/-- String-literal loop (src/src/lexer.rs:139-171): `escaped` is the
backslash flag; returns (unescaped value, rest, line, column). -/
def takeStr (q : Char) : List Char → Bool → Nat → Nat → List Char × List Char × Nat × Nat
  | [], _, line, col => ([], [], line, col)
  | c :: cs, escaped, line, col =>
    if escaped then
      let r := takeStr q cs false line (col + 1)
      (unescapeChar c :: r.1, r.2.1, r.2.2.1, r.2.2.2)
    else if c = '\\' then takeStr q cs true line (col + 1)
    else if c = q then ([], cs, line, col + 1)
    else if c = '\n' then
      let r := takeStr q cs false (line + 1) 1
      (c :: r.1, r.2.1, r.2.2.1, r.2.2.2)
    else
      let r := takeStr q cs false line (col + 1)
      (c :: r.1, r.2.1, r.2.2.1, r.2.2.2)

/-- Numeric-literal loop (src/src/lexer.rs:187-206): digits with at most one
dot; a trailing `n` (only when no dot was seen) is consumed, excluded from
the payload, and flags a BigInt. Returns (payload, is_bigint, rest). -/
def takeNum : List Char → Bool → List Char × Bool × List Char
  | [], _ => ([], false, [])
  | c :: cs, hasDot =>
    if is_ascii_digit c then
      let r := takeNum cs hasDot
      (c :: r.1, r.2.1, r.2.2)
    else if c = '.' ∧ hasDot = false then
      let r := takeNum cs true
      (c :: r.1, r.2.1, r.2.2)
    else if c = 'n' ∧ hasDot = false then ([], true, cs)
    else ([], false, c :: cs)

/-- Identifier loop (src/src/lexer.rs:224-232). -/
def takeIdent : List Char → List Char × List Char
  | [] => ([], [])
  | c :: cs =>
    if identCont c then ((c :: (takeIdent cs).1), (takeIdent cs).2)
    else ([], c :: cs)

/-- The fixed lexeme table of `find_match` (src/src/token.rs:204-353), in
source order.  A Rust `match` on distinct string literals is a first-match
lookup in this association list. -/
def matchTable : List (List Char × Token) :=
  [("+".toList, Token.Plus),
   ("-".toList, Token.Minus),
   ("*".toList, Token.Asterisk),
   ("/".toList, Token.Slash),
   ("%".toList, Token.Percent),
   ("**".toList, Token.AsteriskAsterisk),
   ("++".toList, Token.PlusPlus),
   ("--".toList, Token.MinusMinus),
   ("=".toList, Token.Equals),
   ("+=".toList, Token.PlusEquals),
   ("-=".toList, Token.MinusEquals),
   ("*=".toList, Token.AsteriskEquals),
   ("/=".toList, Token.SlashEquals),
   ("%=".toList, Token.PercentEquals),
   ("**=".toList, Token.AsteriskAsteriskEquals),
   ("&=".toList, Token.AmpersandEquals),
   ("|=".toList, Token.BarEquals),
   ("^=".toList, Token.CaretEquals),
   ("==".toList, Token.EqualsEquals),
   ("!=".toList, Token.ExclamationEquals),
   ("===".toList, Token.EqualsEqualsEquals),
   ("!==".toList, Token.ExclamationEqualsEquals),
   (">".toList, Token.GreaterThan),
   ("<".toList, Token.LessThan),
   (">=".toList, Token.GreaterThanEquals),
   ("<=".toList, Token.LessThanEquals),
   ("&&".toList, Token.AmpersandAmpersand),
   ("||".toList, Token.BarBar),
   ("!".toList, Token.Bang),
   ("&".toList, Token.Ampersand),
   ("|".toList, Token.Bar),
   ("^".toList, Token.Caret),
   ("~".toList, Token.Tilde),
   ("??".toList, Token.QuestionQuestion),
   ("=>".toList, Token.EqualsGreaterThan),
   ("...".toList, Token.DotDotDot),
   ("?".toList, Token.Question),
   ("?.".toList, Token.QuestionDot),
   (":".toList, Token.Colon),
   (",".toList, Token.Comma),
   (";".toList, Token.Semicolon),
   (".".toList, Token.Dot),
   ("(".toList, Token.OpenParen),
   (")".toList, Token.CloseParen),
   ("\x7b".toList, Token.OpenBrace),
   ("\x7d".toList, Token.CloseBrace),
   ("[".toList, Token.OpenBracket),
   ("]".toList, Token.CloseBracket),
   ("break".toList, Token.Break),
   ("case".toList, Token.Case),
   ("catch".toList, Token.Catch),
   ("class".toList, Token.Class),
   ("const".toList, Token.Const),
   ("continue".toList, Token.Continue),
   ("debugger".toList, Token.Debugger),
   ("default".toList, Token.Default),
   ("delete".toList, Token.Delete),
   ("do".toList, Token.Do),
   ("else".toList, Token.Else),
   ("enum".toList, Token.Enum),
   ("export".toList, Token.Export),
   ("extends".toList, Token.Extends),
   ("finally".toList, Token.Finally),
   ("for".toList, Token.For),
   ("function".toList, Token.Function),
   ("if".toList, Token.If),
   ("import".toList, Token.Import),
   ("in".toList, Token.In),
   ("instanceof".toList, Token.InstanceOf),
   ("let".toList, Token.Let),
   ("new".toList, Token.New),
   ("return".toList, Token.Return),
   ("super".toList, Token.Super),
   ("switch".toList, Token.Switch),
   ("this".toList, Token.This),
   ("throw".toList, Token.Throw),
   ("try".toList, Token.Try),
   ("typeof".toList, Token.TypeOf),
   ("var".toList, Token.Var),
   ("void".toList, Token.Void),
   ("while".toList, Token.While),
   ("with".toList, Token.With),
   ("implements".toList, Token.Implements),
   ("interface".toList, Token.Interface),
   ("package".toList, Token.Package),
   ("private".toList, Token.Private),
   ("protected".toList, Token.Protected),
   ("public".toList, Token.Public),
   ("static".toList, Token.Static),
   ("yield".toList, Token.Yield),
   ("abstract".toList, Token.Abstract),
   ("as".toList, Token.As),
   ("asserts".toList, Token.Asserts),
   ("any".toList, Token.Any),
   ("async".toList, Token.Async),
   ("await".toList, Token.Await),
   ("boolean".toList, Token.Boolean),
   ("constructor".toList, Token.Constructor),
   ("declare".toList, Token.Declare),
   ("get".toList, Token.Get),
   ("infer".toList, Token.Infer),
   ("is".toList, Token.Is),
   ("keyof".toList, Token.KeyOf),
   ("module".toList, Token.Module),
   ("namespace".toList, Token.Namespace),
   ("never".toList, Token.Never),
   ("readonly".toList, Token.Readonly),
   ("require".toList, Token.Require),
   ("number".toList, Token.Number),
   ("object".toList, Token.Object),
   ("set".toList, Token.Set),
   ("string".toList, Token.String),
   ("symbol".toList, Token.Symbol),
   ("type".toList, Token.«Type»),
   ("undefined".toList, Token.Undefined),
   ("unique".toList, Token.Unique),
   ("unknown".toList, Token.Unknown),
   ("from".toList, Token.From),
   ("global".toList, Token.Global),
   ("bigint".toList, Token.BigInt),
   ("of".toList, Token.Of),
   ("satisfies".toList, Token.Satisfies),
   ("override".toList, Token.Override),
   ("using".toList, Token.Using)]

/-- `find_match` (src/src/token.rs:204-353). -/
def find_match (s : List Char) : Option Token :=
  (matchTable.find? (fun p => p.1 == s)).map (fun p => p.2)

/-- One trial of the operator longest-match loop (src/src/lexer.rs:260-282):
try the given prefix lengths in order; on a table hit return the token and
the matched length. -/
def tryMatchLens : List Nat → List Char → Option (Token × Nat)
  | [], _ => none
  | len :: lens, opChars =>
    match find_match (opChars.take len) with
    | some t => some (t, len)
    | none => tryMatchLens lens opChars

/-- Operator longest-match (src/src/lexer.rs:245-282): up to 4 lookahead
characters, tried from longest prefix to shortest. -/
def tryMatchOp (opChars : List Char) : Option (Token × Nat) :=
  tryMatchLens (List.range' 1 opChars.length).reverse opChars

/-- Position advance for consumed operator characters
(src/src/lexer.rs:269-278). -/
def advancePos : List Char → Nat → Nat → Nat × Nat
  | [], line, col => (line, col)
  | c :: cs, line, col =>
    if c = '\n' then advancePos cs (line + 1) 1 else advancePos cs line (col + 1)

/-- The scanner loop of `Lexer::lex` (src/src/lexer.rs:20-304), fuel-indexed
so that it is structurally recursive; `lex` supplies `length + 1` fuel, which
is always sufficient because every iteration consumes at least one character. -/
def lexLoop : Nat → List Char → Nat → Nat → List SpannedToken
  | 0, _, _, _ => []
  | _ + 1, [], line, col => [⟨Token.Eof, line, col⟩]
  | fuel + 1, c :: rest, line, col =>
    if rustIsWhitespace c then
      if c = '\n' then
        ⟨Token.NewLineTrivia, line, col⟩ :: lexLoop fuel rest (line + 1) 1
      else
        ⟨Token.WhitespaceTrivia (takeWs (c :: rest)).1, line, col⟩ ::
          lexLoop fuel (takeWs (c :: rest)).2 line (col + (takeWs (c :: rest)).1.length)
    else if c = '/' ∧ rest.head? = some '/' then
      ⟨Token.SingleLineCommentTrivia ('/' :: '/' :: (takeLineComment rest.tail).1), line, col⟩ ::
        lexLoop fuel (takeLineComment rest.tail).2 line (col + 2 + (takeLineComment rest.tail).1.length)
    else if c = '/' ∧ rest.head? = some '*' then
      ⟨Token.MultiLineCommentTrivia ('/' :: '*' :: (takeBlock rest.tail 1 line (col + 2)).1), line, col⟩ ::
        lexLoop fuel (takeBlock rest.tail 1 line (col + 2)).2.1
          (takeBlock rest.tail 1 line (col + 2)).2.2.1 (takeBlock rest.tail 1 line (col + 2)).2.2.2
    else if c = '"' ∨ c = '\'' then
      ⟨Token.StringLiteral (takeStr c rest false line (col + 1)).1, line, col⟩ ::
        lexLoop fuel (takeStr c rest false line (col + 1)).2.1
          (takeStr c rest false line (col + 1)).2.2.1 (takeStr c rest false line (col + 1)).2.2.2
    else if is_ascii_digit c then
      ⟨(if (takeNum (c :: rest) false).2.1 then Token.BigIntLiteral (takeNum (c :: rest) false).1
        else Token.NumericLiteral (takeNum (c :: rest) false).1), line, col⟩ ::
        lexLoop fuel (takeNum (c :: rest) false).2.2 line
          (col + (takeNum (c :: rest) false).1.length + (if (takeNum (c :: rest) false).2.1 then 1 else 0))
    else if identStart c then
      ⟨(find_match (takeIdent (c :: rest)).1).getD (Token.Identifier (takeIdent (c :: rest)).1), line, col⟩ ::
        lexLoop fuel (takeIdent (c :: rest)).2 line (col + (takeIdent (c :: rest)).1.length)
    else
      match tryMatchOp ((c :: rest).take 4) with
      | some (t, len) =>
        ⟨t, line, col⟩ ::
          lexLoop fuel ((c :: rest).drop len)
            (advancePos ((c :: rest).take len) line col).1 (advancePos ((c :: rest).take len) line col).2
      | none => ⟨Token.Illegal, line, col⟩ :: lexLoop fuel rest line (col + 1)

/-- `Lexer::lex` (src/src/lexer.rs:20-304). -/
def lex (s : List Char) : List SpannedToken :=
  lexLoop (s.length + 1) s 1 1

/-- Rust `char::escape_default`: the six named escapes, printable ASCII
passed through, anything else as a `\u{...}` escape in lowercase hex. -/
def escape_default (c : Char) : List Char :=
  if c = '\t' then ['\\', 't']
  else if c = '\r' then ['\\', 'r']
  else if c = '\n' then ['\\', 'n']
  else if c = '\\' ∨ c = '\'' ∨ c = '"' then ['\\', c]
  else if 0x20 ≤ c.toNat ∧ c.toNat ≤ 0x7e then [c]
  else '\\' :: 'u' :: '\x7b' :: (Nat.toDigits 16 c.toNat ++ ['\x7d'])

/-- `escape_string` (src/src/token.rs:355-357):
`value.chars().flat_map(|c| c.escape_default()).collect()`. -/
def escape_string (value : List Char) : List Char :=
  (value.map escape_default).flatten

/-- The back-quote character (written via its code point). -/
def backquote : Char := Char.ofNat 0x60

/-- `escape_template` (src/src/token.rs:359-361). -/
def escape_template (value : List Char) : List Char :=
  (value.map (fun c => if c = backquote then ['\\', backquote] else [c])).flatten

/-- `escape_regex_body` (src/src/token.rs:363-365). -/
def escape_regex_body (value : List Char) : List Char :=
  (value.map (fun c => if c = '/' then ['\\', '/'] else [c])).flatten

/-- `token_fragment` (src/src/token.rs:367-534).

The four trivia clauses that carry payload text are
`Modelled from the spec:` `token.rs` only declares payload-less trivia
variants (rendered as fixed placeholders) and therefore has no fragment code
for the text-preserving variants the lexer constructs; the spec (§3, §4.1)
states that for trivia carrying payload text the canonical fragment is the
exact original text, which is what these clauses return.  Every other clause
is translated directly from the source. -/
def token_fragment : Token → Option (List Char)
  | Token.Illegal => some ("/*illegal*/".toList)
  | Token.Eof => none
  | Token.SingleLineCommentTrivia text => some text
  | Token.MultiLineCommentTrivia text => some text
  | Token.NewLineTrivia => some ['\n']
  | Token.WhitespaceTrivia text => some text
  | Token.ShebangTrivia => some ("#!".toList)
  | Token.ConflictMarkerTrivia => some ("<<<<<<<".toList)
  | Token.Identifier name => some name
  | Token.PrivateIdentifier name => some ('#' :: name)
  | Token.NumericLiteral value => some value
  | Token.BigIntLiteral value => some (value ++ ['n'])
  | Token.StringLiteral value => some ('"' :: (escape_string value ++ ['"']))
  | Token.RegularExpressionLiteral body => some ('/' :: (escape_regex_body body ++ ['/']))
  | Token.NoSubstitutionTemplateLiteral value => some (backquote :: (escape_template value ++ [backquote]))
  | Token.TemplateHead value => some (backquote :: (escape_template value ++ ['$', '\x7b']))
  | Token.TemplateMiddle value => some ('\x7d' :: (escape_template value ++ ['$', '\x7b']))
  | Token.TemplateTail value => some ('\x7d' :: (escape_template value ++ [backquote]))
  | Token.JsxText value => some value
  | Token.JsxTextAllWhiteSpaces value => some value
  | Token.DotDotDot => some ("...".toList)
  | Token.QuestionDot => some ("?.".toList)
  | Token.LessThanSlash => some ("</".toList)
  | Token.Plus => some ("+".toList)
  | Token.Minus => some ("-".toList)
  | Token.Asterisk => some ("*".toList)
  | Token.AsteriskAsterisk => some ("**".toList)
  | Token.Slash => some ("/".toList)
  | Token.Percent => some ("%".toList)
  | Token.PlusPlus => some ("++".toList)
  | Token.MinusMinus => some ("--".toList)
  | Token.LessThanLessThan => some ("<<".toList)
  | Token.GreaterThanGreaterThan => some (">>".toList)
  | Token.GreaterThanGreaterThanGreaterThan => some (">>>".toList)
  | Token.Ampersand => some ("&".toList)
  | Token.Bar => some ("|".toList)
  | Token.Caret => some ("^".toList)
  | Token.Bang => some ("!".toList)
  | Token.Tilde => some ("~".toList)
  | Token.AmpersandAmpersand => some ("&&".toList)
  | Token.BarBar => some ("||".toList)
  | Token.Question => some ("?".toList)
  | Token.At => some ("@".toList)
  | Token.QuestionQuestion => some ("??".toList)
  | Token.Hash => some ("#".toList)
  | Token.Equals => some ("=".toList)
  | Token.PlusEquals => some ("+=".toList)
  | Token.MinusEquals => some ("-=".toList)
  | Token.AsteriskEquals => some ("*=".toList)
  | Token.AsteriskAsteriskEquals => some ("**=".toList)
  | Token.SlashEquals => some ("/=".toList)
  | Token.PercentEquals => some ("%=".toList)
  | Token.LessThanLessThanEquals => some ("<<=".toList)
  | Token.GreaterThanGreaterThanEquals => some (">>=".toList)
  | Token.GreaterThanGreaterThanGreaterThanEquals => some (">>>=".toList)
  | Token.AmpersandEquals => some ("&=".toList)
  | Token.BarEquals => some ("|=".toList)
  | Token.CaretEquals => some ("^=".toList)
  | Token.BarBarEquals => some ("||=".toList)
  | Token.AmpersandAmpersandEquals => some ("&&=".toList)
  | Token.QuestionQuestionEquals => some ("??=".toList)
  | Token.EqualsEquals => some ("==".toList)
  | Token.ExclamationEquals => some ("!=".toList)
  | Token.EqualsEqualsEquals => some ("===".toList)
  | Token.ExclamationEqualsEquals => some ("!==".toList)
  | Token.GreaterThan => some (">".toList)
  | Token.LessThan => some ("<".toList)
  | Token.GreaterThanEquals => some (">=".toList)
  | Token.LessThanEquals => some ("<=".toList)
  | Token.EqualsGreaterThan => some ("=>".toList)
  | Token.Comma => some (",".toList)
  | Token.Semicolon => some (";".toList)
  | Token.Colon => some (":".toList)
  | Token.Dot => some (".".toList)
  | Token.OpenParen => some ("(".toList)
  | Token.CloseParen => some (")".toList)
  | Token.OpenBrace => some ("\x7b".toList)
  | Token.CloseBrace => some ("\x7d".toList)
  | Token.OpenBracket => some ("[".toList)
  | Token.CloseBracket => some ("]".toList)
  | Token.Break => some ("break".toList)
  | Token.Case => some ("case".toList)
  | Token.Catch => some ("catch".toList)
  | Token.Class => some ("class".toList)
  | Token.Const => some ("const".toList)
  | Token.Continue => some ("continue".toList)
  | Token.Debugger => some ("debugger".toList)
  | Token.Default => some ("default".toList)
  | Token.Delete => some ("delete".toList)
  | Token.Do => some ("do".toList)
  | Token.Else => some ("else".toList)
  | Token.Enum => some ("enum".toList)
  | Token.Export => some ("export".toList)
  | Token.Extends => some ("extends".toList)
  | Token.False => some ("false".toList)
  | Token.Finally => some ("finally".toList)
  | Token.For => some ("for".toList)
  | Token.Function => some ("function".toList)
  | Token.If => some ("if".toList)
  | Token.Import => some ("import".toList)
  | Token.In => some ("in".toList)
  | Token.InstanceOf => some ("instanceof".toList)
  | Token.New => some ("new".toList)
  | Token.Null => some ("null".toList)
  | Token.Return => some ("return".toList)
  | Token.Super => some ("super".toList)
  | Token.Switch => some ("switch".toList)
  | Token.This => some ("this".toList)
  | Token.Throw => some ("throw".toList)
  | Token.True => some ("true".toList)
  | Token.Try => some ("try".toList)
  | Token.TypeOf => some ("typeof".toList)
  | Token.Var => some ("var".toList)
  | Token.Void => some ("void".toList)
  | Token.While => some ("while".toList)
  | Token.With => some ("with".toList)
  | Token.Implements => some ("implements".toList)
  | Token.Interface => some ("interface".toList)
  | Token.Let => some ("let".toList)
  | Token.Package => some ("package".toList)
  | Token.Private => some ("private".toList)
  | Token.Protected => some ("protected".toList)
  | Token.Public => some ("public".toList)
  | Token.Static => some ("static".toList)
  | Token.Yield => some ("yield".toList)
  | Token.Abstract => some ("abstract".toList)
  | Token.As => some ("as".toList)
  | Token.Asserts => some ("asserts".toList)
  | Token.Any => some ("any".toList)
  | Token.Async => some ("async".toList)
  | Token.Await => some ("await".toList)
  | Token.Boolean => some ("boolean".toList)
  | Token.Constructor => some ("constructor".toList)
  | Token.Declare => some ("declare".toList)
  | Token.Get => some ("get".toList)
  | Token.Infer => some ("infer".toList)
  | Token.Is => some ("is".toList)
  | Token.KeyOf => some ("keyof".toList)
  | Token.Module => some ("module".toList)
  | Token.Namespace => some ("namespace".toList)
  | Token.Never => some ("never".toList)
  | Token.Readonly => some ("readonly".toList)
  | Token.Require => some ("require".toList)
  | Token.Number => some ("number".toList)
  | Token.Object => some ("object".toList)
  | Token.Set => some ("set".toList)
  | Token.String => some ("string".toList)
  | Token.Symbol => some ("symbol".toList)
  | Token.«Type» => some ("type".toList)
  | Token.Undefined => some ("undefined".toList)
  | Token.Unique => some ("unique".toList)
  | Token.Unknown => some ("unknown".toList)
  | Token.From => some ("from".toList)
  | Token.Global => some ("global".toList)
  | Token.BigInt => some ("bigint".toList)
  | Token.Of => some ("of".toList)
  | Token.Satisfies => some ("satisfies".toList)
  | Token.Override => some ("override".toList)
  | Token.Using => some ("using".toList)

/-- `is_identifier_char` (src/src/token.rs:536-538). -/
def is_identifier_char (c : Char) : Bool :=
  is_ascii_alphanumeric c || decide (c = '_') || decide (c = '$')

/-- `needs_separator` (src/src/token.rs:540-566). -/
def needs_separator (prev_fragment next_fragment : List Char) : Bool :=
  if (prev_fragment.getLast?.map rustIsWhitespace).getD false then false
  else if (next_fragment.head?.map rustIsWhitespace).getD false then false
  else
    match prev_fragment.reverse.find? (fun c => !rustIsWhitespace c),
          next_fragment.find? (fun c => !rustIsWhitespace c) with
    | some p, some n => is_identifier_char p && is_identifier_char n
    | _, _ => false

/-- One fold step of `tokens_to_source` (src/src/token.rs:576-584). -/
def renderStep (acc : List Char) (token : SpannedToken) : List Char :=
  match token_fragment token.value with
  | some fragment =>
    (if !acc.isEmpty && needs_separator acc fragment then acc ++ [' '] else acc) ++ fragment
  | none => acc

/-- `tokens_to_source` (src/src/token.rs:572-585). -/
def tokens_to_source (tokens : List SpannedToken) : List Char :=
  tokens.foldl renderStep []

/-- A character whose `escape_default` rendering is itself. -/
def selfEscape (c : Char) : Bool := escape_default c == [c]

/-- Check of a double-quoted string-literal body as seen by the scanner:
every escape is one of the six recognized ones, every unescaped character
renders as itself, and the literal is terminated by an unescaped `"` before
the end of input.  Bodies passing this check render back verbatim. -/
def goodStrBody : List Char → Bool
  | [] => false
  | c :: cs =>
    if c = '\\' then
      match cs with
      | [] => false
      | e :: cs' => (['n', 't', 'r', '\\', '"', '\''].contains e) && goodStrBody cs'
    else if c = '"' then true
    else selfEscape c && goodStrBody cs

/-- Boundary check after a numeric or BigInt literal: the rendered fragment
must not end with an identifier-class character while the next source
character is also identifier-class (otherwise the renderer inserts a space
that the original source did not contain). -/
def numBoundary (n : List Char) (big : Bool) (r : List Char) : Bool :=
  match r.head? with
  | some d => !((if big then true else is_identifier_char (n.getLastD ' ')) && is_identifier_char d)
  | none => true

/-- Fuel-indexed check that a source text round-trips through `lex` and
`tokens_to_source`: it mirrors the case analysis of `lexLoop` and rules out
exactly the lossy situations — illegal characters, string literals that are
single-quoted, unterminated, or whose body does not re-escape verbatim, and
numeric/BigInt literals immediately followed by an identifier-class
character. -/
def goodLoop : Nat → List Char → Bool
  | 0, _ => false
  | _ + 1, [] => true
  | fuel + 1, c :: rest =>
    if rustIsWhitespace c then
      if c = '\n' then goodLoop fuel rest
      else goodLoop fuel (takeWs (c :: rest)).2
    else if c = '/' ∧ rest.head? = some '/' then goodLoop fuel (takeLineComment rest.tail).2
    else if c = '/' ∧ rest.head? = some '*' then goodLoop fuel (takeBlock rest.tail 1 1 1).2.1
    else if c = '"' ∨ c = '\'' then
      decide (c = '"') && goodStrBody rest && goodLoop fuel (takeStr c rest false 1 1).2.1
    else if is_ascii_digit c then
      numBoundary (takeNum (c :: rest) false).1 (takeNum (c :: rest) false).2.1
          (takeNum (c :: rest) false).2.2 &&
        goodLoop fuel (takeNum (c :: rest) false).2.2
    else if identStart c then goodLoop fuel (takeIdent (c :: rest)).2
    else
      match tryMatchOp ((c :: rest).take 4) with
      | some (_, len) => goodLoop fuel ((c :: rest).drop len)
      | none => false

/-- Sources whose scan renders back exactly (see `goodLoop`). -/
def goodSource (s : List Char) : Bool := goodLoop (s.length + 1) s

/-- Token is the illegal-character sentinel. -/
def isIllegal : Token → Bool
  | Token.Illegal => true
  | _ => false

/-- A string-literal remainder with no matching unescaped closing delimiter
`q` before the end of input, under the scanner's backslash-escape rule. -/
def unterminated (q : Char) : List Char → Bool → Bool
  | [], _ => true
  | c :: cs, escaped =>
    if escaped then unterminated q cs false
    else if c = '\\' then unterminated q cs true
    else if c = q then false
    else unterminated q cs false

/-- The unescaped value of a string-literal remainder (spec §4.2 step 3:
recognized escapes map to their character, any other escaped character
passes through, everything else is kept verbatim). -/
def unescapedText : List Char → Bool → List Char
  | [], _ => []
  | c :: cs, escaped =>
    if escaped then unescapeChar c :: unescapedText cs false
    else if c = '\\' then unescapedText cs true
    else c :: unescapedText cs false

/-- The separator condition exactly as the spec words it (§4.3): output
non-empty, fragment does not start with whitespace, output does not end with
whitespace, and the output's last non-whitespace character and the
fragment's first character are both identifier-class. -/
def sepSpec (acc fragment : List Char) : Bool :=
  !acc.isEmpty &&
  !((fragment.head?.map rustIsWhitespace).getD false) &&
  !((acc.getLast?.map rustIsWhitespace).getD false) &&
  (match acc.reverse.find? (fun c => !rustIsWhitespace c), fragment.head? with
   | some p, some n => is_identifier_char p && is_identifier_char n
   | _, _ => false)

/-! ### Decomposition lemmas for the scanning helpers -/

theorem takeWs_append (l : List Char) : (takeWs l).1 ++ (takeWs l).2 = l := by
  induction l with
  | nil => rfl
  | cons c cs ih =>
    by_cases h : c = '\n' ∨ rustIsWhitespace c = false
    · simp [takeWs, h]
    · simp [takeWs, h, ih]

theorem takeWs_cons_of_ws (c : Char) (cs : List Char)
    (h1 : rustIsWhitespace c = true) (h2 : c ≠ '\n') :
    takeWs (c :: cs) = (c :: (takeWs cs).1, (takeWs cs).2) := by
  simp [takeWs, h1, h2]

theorem takeWs_all (l : List Char) : ∀ x ∈ (takeWs l).1, rustIsWhitespace x = true := by
  induction l with
  | nil => simp [takeWs]
  | cons c cs ih =>
    by_cases h : c = '\n' ∨ rustIsWhitespace c = false
    · simp [takeWs, h]
    · have h1 : c ≠ '\n' := (not_or.mp h).1
      have h2 : rustIsWhitespace c = true := by
        have := (not_or.mp h).2
        simpa using this
      rw [takeWs_cons_of_ws c cs h2 h1]
      intro x hx
      rcases List.mem_cons.mp hx with hx | hx
      · subst hx; exact h2
      · exact ih x hx

theorem takeLineComment_append (l : List Char) :
    (takeLineComment l).1 ++ (takeLineComment l).2 = l := by
  induction l with
  | nil => rfl
  | cons c cs ih =>
    by_cases h : c = '\n'
    · simp [takeLineComment, h]
    · simp [takeLineComment, h, ih]

theorem takeLineComment_rest (l : List Char) :
    (takeLineComment l).2.head? = some '\n' ∨ (takeLineComment l).2 = [] := by
  induction l with
  | nil => right; rfl
  | cons c cs ih =>
    by_cases h : c = '\n'
    · left; simp [takeLineComment, h]
    · simpa [takeLineComment, h] using ih

theorem takeBlock_append (l : List Char) (d li co : Nat) :
    (takeBlock l d li co).1 ++ (takeBlock l d li co).2.1 = l := by
  induction l, d, li, co using takeBlock.induct with
  | case1 => rfl
  | case2 cs depth line col ih => simpa [takeBlock] using ih
  | case3 cs depth line col h => simp [takeBlock, h]
  | case4 cs depth line col h ih => simp [takeBlock, h]; simpa using ih
  | case5 cs depth line col ih => simp [takeBlock]; simpa using ih
  | case6 c cs depth line col h1 h2 h3 ih => simp [takeBlock, h1, h2, h3]; simpa using ih

theorem takeBlock_last (l : List Char) (d li co : Nat) :
    (takeBlock l d li co).2.1 ≠ [] → (takeBlock l d li co).1.getLast? = some '/' := by
  induction l, d, li, co using takeBlock.induct with
  | case1 => intro h; simp [takeBlock] at h
  | case2 cs depth line col ih =>
    intro h
    simp only [takeBlock] at h ⊢
    have := ih (by simpa using h)
    rw [List.getLast?_cons]
    simp_all
  | case3 cs depth line col h => intro _; simp [takeBlock, h]
  | case4 cs depth line col h ih =>
    intro hne
    simp only [takeBlock, if_neg h] at hne ⊢
    have := ih (by simpa using hne)
    rw [List.getLast?_cons, List.getLast?_cons]
    simp_all
  | case5 cs depth line col ih =>
    intro hne
    simp only [takeBlock] at hne ⊢
    have := ih (by simpa using hne)
    rw [List.getLast?_cons, List.getLast?_cons]
    simp_all
  | case6 c cs depth line col h1 h2 h3 ih =>
    intro hne
    simp only [takeBlock, h1, h2, h3] at hne ⊢
    have := ih (by simpa using hne)
    rw [List.getLast?_cons]
    simp_all

theorem takeBlock_indep (l : List Char) (d li co li' co' : Nat) :
    (takeBlock l d li co).1 = (takeBlock l d li' co').1 ∧
    (takeBlock l d li co).2.1 = (takeBlock l d li' co').2.1 := by
  induction l, d, li, co using takeBlock.induct generalizing li' co' with
  | case1 => exact ⟨rfl, rfl⟩
  | case2 cs depth line col ih =>
    have h := ih (li' + 1) 1
    simp [takeBlock, h.1, h.2]
  | case3 cs depth line col h => simp [takeBlock, h]
  | case4 cs depth line col h ih =>
    have hh := ih li' (co' + 1)
    simp [takeBlock, h, hh.1, hh.2]
  | case5 cs depth line col ih =>
    have hh := ih li' (co' + 1)
    simp [takeBlock, hh.1, hh.2]
  | case6 c cs depth line col h1 h2 h3 ih =>
    have hh := ih li' (co' + 1)
    simp [takeBlock, h1, h2, h3, hh.1, hh.2]

theorem takeStr_indep (q : Char) (l : List Char) (esc : Bool) (li co : Nat) :
    ∀ li' co', (takeStr q l esc li co).1 = (takeStr q l esc li' co').1 ∧
      (takeStr q l esc li co).2.1 = (takeStr q l esc li' co').2.1 := by
  induction l, esc, li, co using takeStr.induct q with
  | case1 x line col => intro li' co'; exact ⟨rfl, rfl⟩
  | case2 c cs line col ih =>
    intro li' co'
    have h := ih li' (co' + 1)
    simp [takeStr, h.1, h.2]
  | case3 cs escaped line col h1 ih =>
    intro li' co'
    have he : escaped = false := by simpa using h1
    subst he
    have h := ih li' (co' + 1)
    simp [takeStr, h.1, h.2]
  | case4 cs escaped line col h1 h2 =>
    intro li' co'
    have he : escaped = false := by simpa using h1
    subst he
    simp [takeStr, h2]
  | case5 cs escaped line col h1 h2 h3 ih =>
    intro li' co'
    have he : escaped = false := by simpa using h1
    subst he
    have h := ih (li' + 1) 1
    simp [takeStr, h3, h.1, h.2]
  | case6 c cs escaped line col h1 h2 h3 h4 ih =>
    intro li' co'
    have he : escaped = false := by simpa using h1
    subst he
    have h := ih li' (co' + 1)
    simp [takeStr, h2, h3, h4, h.1, h.2]

theorem escape_string_nil : escape_string [] = [] := rfl

theorem escape_string_cons (c : Char) (v : List Char) :
    escape_string (c :: v) = escape_default c ++ escape_string v := by
  simp [escape_string]

theorem escape_default_unescape (e : Char)
    (h : e = 'n' ∨ e = 't' ∨ e = 'r' ∨ e = '\\' ∨ e = '"' ∨ e = '\'') :
    escape_default (unescapeChar e) = ['\\', e] := by
  rcases h with h | h | h | h | h | h <;> subst h <;> rfl

theorem selfEscape_eq (c : Char) (h : selfEscape c = true) : escape_default c = [c] := by
  simpa [selfEscape] using h

theorem takeStr_good (l : List Char) : ∀ (li co : Nat), goodStrBody l = true →
    escape_string (takeStr '"' l false li co).1 ++ '"' :: (takeStr '"' l false li co).2.1 = l := by
  induction l using goodStrBody.induct with
  | case1 => intro li co hg; simp [goodStrBody] at hg
  | case2 => intro li co hg; simp [goodStrBody] at hg
  | case3 c cs ih =>
    intro li co hg
    simp [goodStrBody] at hg
    have hstep : takeStr '"' ('\\' :: c :: cs) false li co
        = (unescapeChar c :: (takeStr '"' cs false li (co + 1 + 1)).1,
           (takeStr '"' cs false li (co + 1 + 1)).2.1,
           (takeStr '"' cs false li (co + 1 + 1)).2.2.1,
           (takeStr '"' cs false li (co + 1 + 1)).2.2.2) := by
      simp [takeStr]
    rw [hstep]
    simp only [escape_string_cons, escape_default_unescape c hg.1]
    have := ih li (co + 1 + 1) hg.2
    simp only [List.cons_append, List.nil_append, List.append_assoc]
    rw [this]
  | case4 cs h =>
    intro li co hg
    simp [takeStr, escape_string_nil]
  | case5 c cs h1 h2 ih =>
    intro li co hg
    unfold goodStrBody at hg
    simp [h1, h2] at hg
    have hself := selfEscape_eq c hg.1
    by_cases h4 : c = '\n'
    · subst h4
      have hstep : takeStr '"' ('\n' :: cs) false li co
          = ('\n' :: (takeStr '"' cs false (li + 1) 1).1,
             (takeStr '"' cs false (li + 1) 1).2.1,
             (takeStr '"' cs false (li + 1) 1).2.2.1,
             (takeStr '"' cs false (li + 1) 1).2.2.2) := by
        simp [takeStr]
      rw [hstep, escape_string_cons, hself]
      have := ih (li + 1) 1 hg.2
      simp only [List.cons_append, List.nil_append]
      rw [this]
    · have hstep : takeStr '"' (c :: cs) false li co
          = (c :: (takeStr '"' cs false li (co + 1)).1,
             (takeStr '"' cs false li (co + 1)).2.1,
             (takeStr '"' cs false li (co + 1)).2.2.1,
             (takeStr '"' cs false li (co + 1)).2.2.2) := by
        simp [takeStr, h1, h2, h4]
      rw [hstep, escape_string_cons, hself]
      have := ih li (co + 1) hg.2
      simp only [List.cons_append, List.nil_append]
      rw [this]

theorem takeNum_append (l : List Char) (hd : Bool) :
    (takeNum l hd).1 ++
      (if (takeNum l hd).2.1 = true then 'n' :: (takeNum l hd).2.2 else (takeNum l hd).2.2) = l := by
  induction l, hd using takeNum.induct with
  | case1 x => simp [takeNum]
  | case2 c cs hasDot h ih => simp only [takeNum, if_pos h]; simpa using ih
  | case3 c cs hasDot h1 h2 ih => simp only [takeNum, if_neg h1, if_pos h2]; simpa using ih
  | case4 c cs hasDot h1 h2 h3 =>
    obtain ⟨hc, hdd⟩ := h3
    subst hc hdd
    simp [takeNum, h1, h2, show is_ascii_digit 'n' = false from rfl]
  | case5 c cs hasDot h1 h2 h3 => simp [takeNum, h1, h2, h3]

theorem takeNum_cons_digit (c : Char) (cs : List Char) (hd : Bool)
    (h : is_ascii_digit c = true) :
    takeNum (c :: cs) hd
      = (c :: (takeNum cs hd).1, (takeNum cs hd).2.1, (takeNum cs hd).2.2) := by
  simp [takeNum, h]

theorem takeIdent_append (l : List Char) : (takeIdent l).1 ++ (takeIdent l).2 = l := by
  induction l with
  | nil => rfl
  | cons c cs ih =>
    by_cases h : identCont c = true
    · simp [takeIdent, h, ih]
    · have h' : identCont c = false := by simpa using h
      simp [takeIdent, h', ih]

theorem takeIdent_cons (c : Char) (cs : List Char) (h : identCont c = true) :
    takeIdent (c :: cs) = (c :: (takeIdent cs).1, (takeIdent cs).2) := by
  simp [takeIdent, h]

theorem takeIdent_rest (l : List Char) :
    ∀ d, (takeIdent l).2.head? = some d → identCont d = false := by
  induction l with
  | nil => intro d h; simp [takeIdent] at h
  | cons c cs ih =>
    intro d h
    by_cases hc : identCont c = true
    · rw [takeIdent_cons c cs hc] at h
      exact ih d h
    · have hc' : identCont c = false := by simpa using hc
      simp [takeIdent, hc'] at h
      exact h ▸ hc'

/-! ### Character-class lemmas -/

theorem ws_not_id (c : Char) (h : rustIsWhitespace c = true) :
    is_identifier_char c = false := by
  simp only [rustIsWhitespace, decide_eq_true_eq] at h
  simp only [is_identifier_char, is_ascii_alphanumeric, is_ascii_alphabetic, is_ascii_digit,
    Bool.or_eq_false_iff, decide_eq_false_iff_not]
  refine ⟨⟨⟨?_, ?_⟩, ?_⟩, ?_⟩
  · omega
  · omega
  · intro hc; subst hc; exact absurd h (by decide)
  · intro hc; subst hc; exact absurd h (by decide)

theorem digit_id (c : Char) (h : is_ascii_digit c = true) :
    is_identifier_char c = true := by
  simp [is_identifier_char, is_ascii_alphanumeric, h]

theorem identStart_id (c : Char) (h : identStart c = true) :
    is_identifier_char c = true := by
  simp only [identStart, Bool.or_eq_true] at h
  simp only [is_identifier_char, is_ascii_alphanumeric, Bool.or_eq_true]
  tauto

theorem not_id_of_not_start (c : Char) (h1 : identStart c = false)
    (h2 : is_ascii_digit c = false) : is_identifier_char c = false := by
  simp only [identStart, Bool.or_eq_false_iff] at h1
  simp [is_identifier_char, is_ascii_alphanumeric, h1.1.1, h1.1.2, h1.2, h2]

theorem identCont_eq (c : Char) : identCont c = is_identifier_char c := rfl

/-! ### Catalog table lemmas -/

set_option maxRecDepth 40000 in
theorem matchTable_fragment : ∀ p ∈ matchTable, token_fragment p.2 = some p.1 := by decide

set_option maxRecDepth 40000 in
theorem matchTable_last : ∀ p ∈ matchTable,
    identStart (p.1.headD ' ') = true ∨ is_identifier_char (p.1.getLastD ' ') = false := by
  decide

set_option maxRecDepth 40000 in
theorem matchTable_ne_nil : ∀ p ∈ matchTable, p.1 ≠ [] := by decide

theorem find_match_mem {s : List Char} {t : Token} (h : find_match s = some t) :
    (s, t) ∈ matchTable := by
  unfold find_match at h
  cases hf : matchTable.find? (fun p => p.1 == s) with
  | none => rw [hf] at h; exact absurd h (by simp)
  | some p =>
    rw [hf] at h
    have hp := List.find?_some hf
    have hm : p ∈ matchTable := List.mem_of_find?_eq_some hf
    have h1 : p.1 = s := by simpa using hp
    have h2 : p.2 = t := by simpa using h
    have : p = (s, t) := Prod.ext h1 h2
    rwa [this] at hm

theorem tryMatchLens_spec : ∀ (ls : List Nat) (op : List Char) (t : Token) (len : Nat),
    tryMatchLens ls op = some (t, len) → len ∈ ls ∧ find_match (op.take len) = some t := by
  intro ls
  induction ls with
  | nil => intro op t len h; simp [tryMatchLens] at h
  | cons l ls ih =>
    intro op t len h
    unfold tryMatchLens at h
    cases hf : find_match (op.take l) with
    | none =>
      rw [hf] at h
      have := ih op t len h
      exact ⟨List.mem_cons_of_mem _ this.1, this.2⟩
    | some t' =>
      rw [hf] at h
      simp only [Option.some_inj, Prod.mk.injEq] at h
      obtain ⟨ht, hl⟩ := h
      subst hl
      exact ⟨List.mem_cons_self _ _, by rw [hf, ht]⟩

theorem tryMatchOp_spec {op : List Char} {t : Token} {len : Nat}
    (h : tryMatchOp op = some (t, len)) :
    1 ≤ len ∧ len ≤ op.length ∧ find_match (op.take len) = some t := by
  obtain ⟨hmem, hfind⟩ := tryMatchLens_spec _ op t len h
  rw [List.mem_reverse, List.mem_range'_1] at hmem
  exact ⟨hmem.1, by omega, hfind⟩

/-! ### Branch equations for the scanner loop and the goodness check -/

theorem digit_not_ws (c : Char) (h : is_ascii_digit c = true) : rustIsWhitespace c = false := by
  simp only [is_ascii_digit, decide_eq_true_eq] at h
  simp only [rustIsWhitespace, decide_eq_false_iff_not]
  omega

theorem digit_ne (c : Char) (h : is_ascii_digit c = true) :
    c ≠ '/' ∧ c ≠ '"' ∧ c ≠ '\'' := by
  refine ⟨?_, ?_, ?_⟩ <;> intro hc <;> subst hc <;> exact absurd h (by decide)

theorem identStart_not_ws (c : Char) (h : identStart c = true) : rustIsWhitespace c = false := by
  simp only [identStart, is_ascii_alphabetic, Bool.or_eq_true, decide_eq_true_eq] at h
  simp only [rustIsWhitespace, decide_eq_false_iff_not]
  rcases h with (h | h) | h
  · omega
  · have : c.toNat = 0x5F := by rw [h]; rfl
    omega
  · have : c.toNat = 0x24 := by rw [h]; rfl
    omega

theorem identStart_ne (c : Char) (h : identStart c = true) :
    c ≠ '/' ∧ c ≠ '"' ∧ c ≠ '\'' := by
  refine ⟨?_, ?_, ?_⟩ <;> intro hc <;> subst hc <;> exact absurd h (by decide)

theorem identStart_not_digit (c : Char) (h : identStart c = true) :
    is_ascii_digit c = false := by
  simp only [identStart, is_ascii_alphabetic, Bool.or_eq_true, decide_eq_true_eq] at h
  simp only [is_ascii_digit, decide_eq_false_iff_not]
  rcases h with (h | h) | h
  · omega
  · have : c.toNat = 0x5F := by rw [h]; rfl
    omega
  · have : c.toNat = 0x24 := by rw [h]; rfl
    omega

theorem lexLoop_nl (f : Nat) (rest : List Char) (line col : Nat) :
    lexLoop (f + 1) ('\n' :: rest) line col
      = ⟨Token.NewLineTrivia, line, col⟩ :: lexLoop f rest (line + 1) 1 := by
  simp [lexLoop, show rustIsWhitespace '\n' = true from rfl]

theorem goodLoop_nl (f : Nat) (rest : List Char) :
    goodLoop (f + 1) ('\n' :: rest) = goodLoop f rest := by
  simp [goodLoop, show rustIsWhitespace '\n' = true from rfl]

theorem lexLoop_ws (f : Nat) (c : Char) (rest : List Char) (line col : Nat)
    (h1 : rustIsWhitespace c = true) (h2 : c ≠ '\n') :
    lexLoop (f + 1) (c :: rest) line col
      = ⟨Token.WhitespaceTrivia (takeWs (c :: rest)).1, line, col⟩ ::
        lexLoop f (takeWs (c :: rest)).2 line (col + (takeWs (c :: rest)).1.length) := by
  simp [lexLoop, h1, h2]

theorem goodLoop_ws (f : Nat) (c : Char) (rest : List Char)
    (h1 : rustIsWhitespace c = true) (h2 : c ≠ '\n') :
    goodLoop (f + 1) (c :: rest) = goodLoop f (takeWs (c :: rest)).2 := by
  simp [goodLoop, h1, h2]

theorem lexLoop_lineComment (f : Nat) (rest : List Char) (line col : Nat)
    (h : rest.head? = some '/') :
    lexLoop (f + 1) ('/' :: rest) line col
      = ⟨Token.SingleLineCommentTrivia ('/' :: '/' :: (takeLineComment rest.tail).1), line, col⟩ ::
        lexLoop f (takeLineComment rest.tail).2 line (col + 2 + (takeLineComment rest.tail).1.length) := by
  simp [lexLoop, h, show rustIsWhitespace '/' = false from rfl]

theorem goodLoop_lineComment (f : Nat) (rest : List Char) (h : rest.head? = some '/') :
    goodLoop (f + 1) ('/' :: rest) = goodLoop f (takeLineComment rest.tail).2 := by
  simp [goodLoop, h, show rustIsWhitespace '/' = false from rfl]

theorem lexLoop_blockComment (f : Nat) (rest : List Char) (line col : Nat)
    (h : rest.head? = some '*') :
    lexLoop (f + 1) ('/' :: rest) line col
      = ⟨Token.MultiLineCommentTrivia ('/' :: '*' :: (takeBlock rest.tail 1 line (col + 2)).1), line, col⟩ ::
        lexLoop f (takeBlock rest.tail 1 line (col + 2)).2.1
          (takeBlock rest.tail 1 line (col + 2)).2.2.1 (takeBlock rest.tail 1 line (col + 2)).2.2.2 := by
  simp [lexLoop, h, show rustIsWhitespace '/' = false from rfl]

theorem goodLoop_blockComment (f : Nat) (rest : List Char) (h : rest.head? = some '*') :
    goodLoop (f + 1) ('/' :: rest) = goodLoop f (takeBlock rest.tail 1 1 1).2.1 := by
  simp [goodLoop, h, show rustIsWhitespace '/' = false from rfl]

theorem lexLoop_string (f : Nat) (q : Char) (rest : List Char) (line col : Nat)
    (hq : q = '"' ∨ q = '\'') :
    lexLoop (f + 1) (q :: rest) line col
      = ⟨Token.StringLiteral (takeStr q rest false line (col + 1)).1, line, col⟩ ::
        lexLoop f (takeStr q rest false line (col + 1)).2.1
          (takeStr q rest false line (col + 1)).2.2.1 (takeStr q rest false line (col + 1)).2.2.2 := by
  rcases hq with rfl | rfl <;>
    simp [lexLoop, show rustIsWhitespace '"' = false from rfl,
      show rustIsWhitespace '\'' = false from rfl]

theorem goodLoop_string (f : Nat) (q : Char) (rest : List Char) (hq : q = '"' ∨ q = '\'') :
    goodLoop (f + 1) (q :: rest)
      = (decide (q = '"') && goodStrBody rest && goodLoop f (takeStr q rest false 1 1).2.1) := by
  rcases hq with rfl | rfl <;>
    simp [goodLoop, show rustIsWhitespace '"' = false from rfl,
      show rustIsWhitespace '\'' = false from rfl]

theorem lexLoop_digit (f : Nat) (c : Char) (rest : List Char) (line col : Nat)
    (h : is_ascii_digit c = true) :
    lexLoop (f + 1) (c :: rest) line col
      = ⟨(if (takeNum (c :: rest) false).2.1 then Token.BigIntLiteral (takeNum (c :: rest) false).1
          else Token.NumericLiteral (takeNum (c :: rest) false).1), line, col⟩ ::
        lexLoop f (takeNum (c :: rest) false).2.2 line
          (col + (takeNum (c :: rest) false).1.length +
            (if (takeNum (c :: rest) false).2.1 then 1 else 0)) := by
  obtain ⟨h1, h2, h3⟩ := digit_ne c h
  simp [lexLoop, h, digit_not_ws c h, h1, h2, h3]

theorem goodLoop_digit (f : Nat) (c : Char) (rest : List Char) (h : is_ascii_digit c = true) :
    goodLoop (f + 1) (c :: rest)
      = (numBoundary (takeNum (c :: rest) false).1 (takeNum (c :: rest) false).2.1
          (takeNum (c :: rest) false).2.2 && goodLoop f (takeNum (c :: rest) false).2.2) := by
  obtain ⟨h1, h2, h3⟩ := digit_ne c h
  simp [goodLoop, h, digit_not_ws c h, h1, h2, h3]

theorem lexLoop_ident (f : Nat) (c : Char) (rest : List Char) (line col : Nat)
    (h : identStart c = true) :
    lexLoop (f + 1) (c :: rest) line col
      = ⟨(find_match (takeIdent (c :: rest)).1).getD (Token.Identifier (takeIdent (c :: rest)).1),
          line, col⟩ ::
        lexLoop f (takeIdent (c :: rest)).2 line (col + (takeIdent (c :: rest)).1.length) := by
  obtain ⟨h1, h2, h3⟩ := identStart_ne c h
  simp [lexLoop, h, identStart_not_ws c h, identStart_not_digit c h, h1, h2, h3]

theorem goodLoop_ident (f : Nat) (c : Char) (rest : List Char) (h : identStart c = true) :
    goodLoop (f + 1) (c :: rest) = goodLoop f (takeIdent (c :: rest)).2 := by
  obtain ⟨h1, h2, h3⟩ := identStart_ne c h
  simp [goodLoop, h, identStart_not_ws c h, identStart_not_digit c h, h1, h2, h3]

/-! ### Renderer helper lemmas -/

theorem getLast?_append_some {l₁ l₂ : List Char} {a : Char} (h : l₂.getLast? = some a) :
    (l₁ ++ l₂).getLast? = some a := by
  rw [List.getLast?_append, h]
  rfl

theorem getLast?_cons_some (c : Char) {l : List Char} {x : Char} (h : l.getLast? = some x) :
    (c :: l).getLast? = some x := by
  cases l with
  | nil => simp at h
  | cons a t => rw [List.getLast?_cons_cons]; exact h

theorem mem_of_getLast?_eq {l : List Char} {a : Char} (h : l.getLast? = some a) : a ∈ l := by
  induction l with
  | nil => simp at h
  | cons c cs ih =>
    cases cs with
    | nil =>
      simp only [List.getLast?_singleton, Option.some_inj] at h
      simp [h]
    | cons d ds =>
      rw [List.getLast?_cons_cons] at h
      exact List.mem_cons_of_mem _ (ih h)

theorem find?_eq_head?_of_not_ws {l : List Char} {b : Char} (hb : l.head? = some b)
    (h : rustIsWhitespace b = false) : l.find? (fun c => !rustIsWhitespace c) = some b := by
  cases l with
  | nil => simp at hb
  | cons a t =>
    obtain rfl : a = b := by simpa using hb
    rw [List.find?_cons_of_pos _ (by simp [h])]

theorem needs_separator_false_right (acc frag : List Char) (b : Char)
    (hb : frag.head? = some b)
    (h : rustIsWhitespace b = true ∨ is_identifier_char b = false) :
    needs_separator acc frag = false := by
  unfold needs_separator
  by_cases hA : ((acc.getLast?.map rustIsWhitespace).getD false) = true
  · rw [if_pos hA]
  · rw [if_neg hA]
    by_cases hB : ((frag.head?.map rustIsWhitespace).getD false) = true
    · rw [if_pos hB]
    · rw [if_neg hB]
      have hwsb : rustIsWhitespace b = false := by
        rw [hb] at hB
        simpa using hB
      have hid : is_identifier_char b = false := by
        rcases h with h | h
        · rw [h] at hwsb; cases hwsb
        · exact h
      rw [find?_eq_head?_of_not_ws hb hwsb]
      cases hP : acc.reverse.find? (fun c => !rustIsWhitespace c) with
      | none => rfl
      | some p => simp [hid]

theorem needs_separator_false_left (acc frag : List Char) (a : Char)
    (ha : acc.getLast? = some a) (h : is_identifier_char a = false) :
    needs_separator acc frag = false := by
  unfold needs_separator
  by_cases hA : ((acc.getLast?.map rustIsWhitespace).getD false) = true
  · rw [if_pos hA]
  · rw [if_neg hA]
    by_cases hB : ((frag.head?.map rustIsWhitespace).getD false) = true
    · rw [if_pos hB]
    · rw [if_neg hB]
      have hwsa : rustIsWhitespace a = false := by
        rw [ha] at hA
        simpa using hA
      have hrev : acc.reverse.find? (fun c => !rustIsWhitespace c) = some a :=
        find?_eq_head?_of_not_ws (by rw [List.head?_reverse]; exact ha) hwsa
      rw [hrev]
      cases hN : frag.find? (fun c => !rustIsWhitespace c) with
      | none => rfl
      | some n => simp [h]

theorem renderStep_eq (acc : List Char) (st : SpannedToken) (frag : List Char)
    (hf : token_fragment st.value = some frag)
    (hsep : acc = [] ∨ needs_separator acc frag = false) :
    renderStep acc st = acc ++ frag := by
  unfold renderStep
  rw [hf]
  rcases hsep with h | h
  · subst h; simp
  · simp [h]

theorem renderStep_eof (acc : List Char) (line col : Nat) :
    renderStep acc ⟨Token.Eof, line, col⟩ = acc := rfl

theorem fuse_shift {acc frag r : List Char} (hne : frag ≠ [])
    (h : ∀ a b, frag.getLast? = some a → r.head? = some b →
      (is_identifier_char a && is_identifier_char b) = false) :
    ∀ a b, (acc ++ frag).getLast? = some a → r.head? = some b →
      (is_identifier_char a && is_identifier_char b) = false := by
  intro a b ha hb
  cases hf : frag.getLast? with
  | none => exact absurd (List.getLast?_eq_none_iff.mp hf) hne
  | some x =>
    rw [getLast?_append_some hf] at ha
    obtain rfl : x = a := by simpa using ha
    exact h x b hf hb

theorem identStart_cont (c : Char) (h : identStart c = true) : identCont c = true := by
  simp only [identStart, Bool.or_eq_true] at h
  simp only [identCont, is_ascii_alphanumeric, Bool.or_eq_true]
  tauto

theorem lexLoop_op (f : Nat) (c : Char) (rest : List Char) (line col : Nat)
    (hws : rustIsWhitespace c = false)
    (h1 : ¬(c = '/' ∧ rest.head? = some '/')) (h2 : ¬(c = '/' ∧ rest.head? = some '*'))
    (h3 : ¬(c = '"' ∨ c = '\'')) (h4 : is_ascii_digit c = false) (h5 : identStart c = false) :
    lexLoop (f + 1) (c :: rest) line col
      = (match tryMatchOp ((c :: rest).take 4) with
         | some (t, len) =>
           ⟨t, line, col⟩ ::
             lexLoop f ((c :: rest).drop len)
               (advancePos ((c :: rest).take len) line col).1
               (advancePos ((c :: rest).take len) line col).2
         | none => ⟨Token.Illegal, line, col⟩ :: lexLoop f rest line (col + 1)) := by
  simp [lexLoop, hws, h1, h2, h3, h4, h5]

theorem goodLoop_op (f : Nat) (c : Char) (rest : List Char)
    (hws : rustIsWhitespace c = false)
    (h1 : ¬(c = '/' ∧ rest.head? = some '/')) (h2 : ¬(c = '/' ∧ rest.head? = some '*'))
    (h3 : ¬(c = '"' ∨ c = '\'')) (h4 : is_ascii_digit c = false) (h5 : identStart c = false) :
    goodLoop (f + 1) (c :: rest)
      = (match tryMatchOp ((c :: rest).take 4) with
         | some (_, len) => goodLoop f ((c :: rest).drop len)
         | none => false) := by
  simp [goodLoop, hws, h1, h2, h3, h4, h5]

theorem lexLoop_lineComment2 (f : Nat) (rs : List Char) (line col : Nat) :
    lexLoop (f + 1) ('/' :: '/' :: rs) line col
      = ⟨Token.SingleLineCommentTrivia ('/' :: '/' :: (takeLineComment rs).1), line, col⟩ ::
        lexLoop f (takeLineComment rs).2 line (col + 2 + (takeLineComment rs).1.length) := by
  simpa using lexLoop_lineComment f ('/' :: rs) line col rfl

theorem goodLoop_lineComment2 (f : Nat) (rs : List Char) :
    goodLoop (f + 1) ('/' :: '/' :: rs) = goodLoop f (takeLineComment rs).2 := by
  simpa using goodLoop_lineComment f ('/' :: rs) rfl

theorem lexLoop_blockComment2 (f : Nat) (rs : List Char) (line col : Nat) :
    lexLoop (f + 1) ('/' :: '*' :: rs) line col
      = ⟨Token.MultiLineCommentTrivia ('/' :: '*' :: (takeBlock rs 1 line (col + 2)).1), line, col⟩ ::
        lexLoop f (takeBlock rs 1 line (col + 2)).2.1
          (takeBlock rs 1 line (col + 2)).2.2.1 (takeBlock rs 1 line (col + 2)).2.2.2 := by
  simpa using lexLoop_blockComment f ('*' :: rs) line col rfl

theorem goodLoop_blockComment2 (f : Nat) (rs : List Char) :
    goodLoop (f + 1) ('/' :: '*' :: rs) = goodLoop f (takeBlock rs 1 1 1).2.1 := by
  simpa using goodLoop_blockComment f ('*' :: rs) rfl

theorem lexLoop_digit_false (f : Nat) (c : Char) (rest : List Char) (line col : Nat)
    (h : is_ascii_digit c = true) (hbig : (takeNum (c :: rest) false).2.1 = false) :
    lexLoop (f + 1) (c :: rest) line col
      = ⟨Token.NumericLiteral (takeNum (c :: rest) false).1, line, col⟩ ::
        lexLoop f (takeNum (c :: rest) false).2.2 line
          (col + (takeNum (c :: rest) false).1.length) := by
  rw [lexLoop_digit f c rest line col h, hbig]
  simp

theorem lexLoop_digit_true (f : Nat) (c : Char) (rest : List Char) (line col : Nat)
    (h : is_ascii_digit c = true) (hbig : (takeNum (c :: rest) false).2.1 = true) :
    lexLoop (f + 1) (c :: rest) line col
      = ⟨Token.BigIntLiteral (takeNum (c :: rest) false).1, line, col⟩ ::
        lexLoop f (takeNum (c :: rest) false).2.2 line
          (col + (takeNum (c :: rest) false).1.length + 1) := by
  rw [lexLoop_digit f c rest line col h, hbig]
  simp

/-- Main round-trip lemma: on inputs accepted by the goodness check, folding
the renderer over the scanner's output extends the accumulator by exactly
the consumed text, provided the accumulator's last character cannot fuse
with the input's first character. -/
theorem renderLoop_good : ∀ (fuel : Nat) (cs : List Char) (line col : Nat) (acc : List Char),
    cs.length < fuel → goodLoop fuel cs = true →
    (∀ a b, acc.getLast? = some a → cs.head? = some b →
      (is_identifier_char a && is_identifier_char b) = false) →
    (lexLoop fuel cs line col).foldl renderStep acc = acc ++ cs := by
  intro fuel
  induction fuel with
  | zero => intro cs line col acc hlen _ _; omega
  | succ f ih =>
    intro cs line col acc hlen hgood hfuse
    cases cs with
    | nil =>
      rw [show lexLoop (f + 1) [] line col = [⟨Token.Eof, line, col⟩] from rfl]
      rw [List.foldl_cons, renderStep_eof]
      simp
    | cons c rest =>
      have hlenr : rest.length < f := by simp at hlen; omega
      by_cases hws : rustIsWhitespace c = true
      · by_cases hnl : c = '\n'
        · subst hnl
          rw [lexLoop_nl, List.foldl_cons,
            renderStep_eq acc ⟨Token.NewLineTrivia, line, col⟩ ['\n'] rfl
              (Or.inr (needs_separator_false_right acc ['\n'] '\n' rfl (Or.inl rfl)))]
          rw [goodLoop_nl] at hgood
          rw [ih rest (line + 1) 1 (acc ++ ['\n']) hlenr hgood ?_]
          · simp
          · intro a b ha hb
            rw [List.getLast?_concat] at ha
            obtain rfl : '\n' = a := by simpa using ha
            simp [show is_identifier_char '\n' = false from rfl]
        · have hcons := takeWs_cons_of_ws c rest hws hnl
          have happ := takeWs_append (c :: rest)
          rw [lexLoop_ws f c rest line col hws hnl, List.foldl_cons,
            renderStep_eq acc ⟨Token.WhitespaceTrivia (takeWs (c :: rest)).1, line, col⟩
              (takeWs (c :: rest)).1 rfl
              (Or.inr (needs_separator_false_right acc _ c (by rw [hcons]; rfl) (Or.inl hws)))]
          rw [goodLoop_ws f c rest hws hnl] at hgood
          have hlen2 : (takeWs (c :: rest)).2.length < f := by
            have hl := congrArg List.length happ
            have hw1 : 1 ≤ (takeWs (c :: rest)).1.length := by rw [hcons]; simp
            simp only [List.length_append, List.length_cons] at hl
            omega
          rw [ih _ line _ (acc ++ (takeWs (c :: rest)).1) hlen2 hgood ?_]
          · rw [List.append_assoc, happ]
          · apply fuse_shift (by rw [hcons]; simp)
            intro a b ha hb
            have hmem := mem_of_getLast?_eq ha
            simp [ws_not_id a (takeWs_all _ a hmem)]
      · by_cases hsl : c = '/' ∧ rest.head? = some '/'
        · obtain ⟨rfl, hh⟩ := hsl
          obtain ⟨rs, rfl⟩ : ∃ rs, rest = '/' :: rs := by
            cases rest with
            | nil => simp at hh
            | cons a t =>
              obtain rfl : a = '/' := by simpa using hh
              exact ⟨t, rfl⟩
          have happ := takeLineComment_append rs
          have hrest := takeLineComment_rest rs
          rw [lexLoop_lineComment2 f rs line col, List.foldl_cons,
            renderStep_eq acc
              ⟨Token.SingleLineCommentTrivia ('/' :: '/' :: (takeLineComment rs).1), line, col⟩
              ('/' :: '/' :: (takeLineComment rs).1) rfl
              (Or.inr (needs_separator_false_right acc _ '/' rfl
                (Or.inr (show is_identifier_char '/' = false from rfl))))]
          rw [goodLoop_lineComment2 f rs] at hgood
          have hlen2 : (takeLineComment rs).2.length < f := by
            have hl := congrArg List.length happ
            simp only [List.length_append] at hl
            simp only [List.length_cons] at hlen
            omega
          rw [ih _ line _ (acc ++ ('/' :: '/' :: (takeLineComment rs).1)) hlen2 hgood ?_]
          · simp only [List.append_assoc, List.cons_append, List.nil_append]
            rw [happ]
          · apply fuse_shift (by simp)
            intro a b ha hb
            rcases hrest with hr | hr
            · rw [hr] at hb
              obtain rfl : '\n' = b := by simpa using hb
              simp [show is_identifier_char '\n' = false from rfl]
            · rw [hr] at hb
              simp at hb
        · by_cases hbl : c = '/' ∧ rest.head? = some '*'
          · obtain ⟨rfl, hh⟩ := hbl
            obtain ⟨rs, rfl⟩ : ∃ rs, rest = '*' :: rs := by
              cases rest with
              | nil => simp at hh
              | cons a t =>
                obtain rfl : a = '*' := by simpa using hh
                exact ⟨t, rfl⟩
            have happ := takeBlock_append rs 1 line (col + 2)
            rw [lexLoop_blockComment2 f rs line col, List.foldl_cons,
              renderStep_eq acc
                ⟨Token.MultiLineCommentTrivia ('/' :: '*' :: (takeBlock rs 1 line (col + 2)).1),
                  line, col⟩
                ('/' :: '*' :: (takeBlock rs 1 line (col + 2)).1) rfl
                (Or.inr (needs_separator_false_right acc _ '/' rfl
                  (Or.inr (show is_identifier_char '/' = false from rfl))))]
            rw [goodLoop_blockComment2 f rs] at hgood
            have hindep := takeBlock_indep rs 1 1 1 line (col + 2)
            rw [hindep.2] at hgood
            have hlen2 : (takeBlock rs 1 line (col + 2)).2.1.length < f := by
              have hl := congrArg List.length happ
              simp only [List.length_append] at hl
              simp only [List.length_cons] at hlen
              omega
            rw [ih _ (takeBlock rs 1 line (col + 2)).2.2.1 (takeBlock rs 1 line (col + 2)).2.2.2
              (acc ++ ('/' :: '*' :: (takeBlock rs 1 line (col + 2)).1)) hlen2 hgood ?_]
            · simp only [List.append_assoc, List.cons_append, List.nil_append]
              rw [happ]
            · apply fuse_shift (by simp)
              intro a b ha hb
              have hne : (takeBlock rs 1 line (col + 2)).2.1 ≠ [] := by
                intro hz
                rw [hz] at hb
                simp at hb
              have hlast := takeBlock_last rs 1 line (col + 2) hne
              have ha' : ('/' :: '*' :: (takeBlock rs 1 line (col + 2)).1).getLast? = some '/' :=
                getLast?_cons_some _ (getLast?_cons_some _ hlast)
              rw [ha'] at ha
              obtain rfl : '/' = a := by simpa using ha
              simp [show is_identifier_char '/' = false from rfl]
          · by_cases hq : c = '"' ∨ c = '\''
            · rw [lexLoop_string f c rest line col hq, List.foldl_cons]
              rw [goodLoop_string f c rest hq] at hgood
              simp only [Bool.and_eq_true, decide_eq_true_eq] at hgood
              obtain ⟨⟨rfl, hbody⟩, hrec⟩ := hgood
              have hindep := takeStr_indep '"' rest false 1 1 line (col + 1)
              rw [hindep.2] at hrec
              have hgoodstr := takeStr_good rest line (col + 1) hbody
              rw [renderStep_eq acc
                ⟨Token.StringLiteral (takeStr '"' rest false line (col + 1)).1, line, col⟩
                ('"' :: (escape_string (takeStr '"' rest false line (col + 1)).1 ++ ['"'])) rfl
                (Or.inr (needs_separator_false_right acc _ '"' rfl
                  (Or.inr (show is_identifier_char '"' = false from rfl))))]
              have hlen2 : (takeStr '"' rest false line (col + 1)).2.1.length < f := by
                have hl := congrArg List.length hgoodstr
                simp only [List.length_append, List.length_cons] at hl
                simp only [List.length_cons] at hlen
                omega
              rw [ih _ (takeStr '"' rest false line (col + 1)).2.2.1
                (takeStr '"' rest false line (col + 1)).2.2.2
                (acc ++ ('"' :: (escape_string (takeStr '"' rest false line (col + 1)).1 ++ ['"'])))
                hlen2 hrec ?_]
              · conv_rhs => rw [← hgoodstr]
                simp [List.append_assoc]
              · apply fuse_shift (by simp)
                intro a b ha hb
                have ha' : ('"' :: (escape_string (takeStr '"' rest false line (col + 1)).1 ++ ['"'])).getLast?
                    = some '"' := getLast?_cons_some _ (List.getLast?_concat _)
                rw [ha'] at ha
                obtain rfl : '"' = a := by simpa using ha
                simp [show is_identifier_char '"' = false from rfl]
            · by_cases hdig : is_ascii_digit c = true
              · rw [goodLoop_digit f c rest hdig] at hgood
                simp only [Bool.and_eq_true] at hgood
                obtain ⟨hbound, hrec⟩ := hgood
                have hconsn := takeNum_cons_digit c rest false hdig
                have happ := takeNum_append (c :: rest) false
                have hne : (takeNum (c :: rest) false).1 ≠ [] := by rw [hconsn]; simp
                have hheadn : (takeNum (c :: rest) false).1.head? = some c := by
                  rw [hconsn]
                  rfl
                have hsepentry : ∀ frag : List Char, frag.head? = some c →
                    acc = [] ∨ needs_separator acc frag = false := by
                  intro frag hfrag
                  cases hacc : acc.getLast? with
                  | none => exact Or.inl (List.getLast?_eq_none_iff.mp hacc)
                  | some a =>
                    have h := hfuse a c hacc rfl
                    have hida : is_identifier_char a = false := by
                      cases hia : is_identifier_char a
                      · rfl
                      · rw [hia, digit_id c hdig] at h
                        cases h
                    exact Or.inr (needs_separator_false_left acc frag a hacc hida)
                have hlen2 : (takeNum (c :: rest) false).2.2.length < f := by
                  have hl := congrArg List.length happ
                  have h1 : 1 ≤ (takeNum (c :: rest) false).1.length := by rw [hconsn]; simp
                  cases hb2 : (takeNum (c :: rest) false).2.1 <;>
                    rw [hb2] at hl <;> simp at hl <;>
                    simp only [List.length_cons] at hlen <;>
                    omega
                cases hbig : (takeNum (c :: rest) false).2.1
                · rw [hbig] at happ
                  rw [show (if ((false : Bool) = true) then 'n' :: (takeNum (c :: rest) false).2.2
                      else (takeNum (c :: rest) false).2.2) = (takeNum (c :: rest) false).2.2
                    from by simp] at happ
                  rw [lexLoop_digit_false f c rest line col hdig hbig, List.foldl_cons]
                  rw [renderStep_eq acc
                    ⟨Token.NumericLiteral (takeNum (c :: rest) false).1, line, col⟩
                    (takeNum (c :: rest) false).1 rfl (hsepentry _ hheadn)]
                  rw [ih _ line _ (acc ++ (takeNum (c :: rest) false).1) hlen2 hrec ?_]
                  · rw [List.append_assoc, happ]
                  · apply fuse_shift hne
                    intro a b ha hb
                    unfold numBoundary at hbound
                    rw [hb, hbig] at hbound
                    rw [List.getLastD_eq_getLast?, ha] at hbound
                    have hbound' : is_identifier_char a = false ∨ is_identifier_char b = false := by
                      simpa using hbound
                    rcases hbound' with h | h <;> simp [h]
                · rw [hbig] at happ
                  rw [show (if ((true : Bool) = true) then 'n' :: (takeNum (c :: rest) false).2.2
                      else (takeNum (c :: rest) false).2.2) = 'n' :: (takeNum (c :: rest) false).2.2
                    from by simp] at happ
                  have hfrag : ((takeNum (c :: rest) false).1 ++ ['n']).head? = some c := by
                    rw [hconsn]; rfl
                  rw [lexLoop_digit_true f c rest line col hdig hbig, List.foldl_cons]
                  rw [renderStep_eq acc
                    ⟨Token.BigIntLiteral (takeNum (c :: rest) false).1, line, col⟩
                    ((takeNum (c :: rest) false).1 ++ ['n']) rfl (hsepentry _ hfrag)]
                  rw [ih _ line _ (acc ++ ((takeNum (c :: rest) false).1 ++ ['n'])) hlen2 hrec ?_]
                  · simp only [List.append_assoc, List.cons_append, List.nil_append] at happ ⊢
                    rw [happ]
                  · apply fuse_shift (by simp)
                    intro a b ha hb
                    rw [List.getLast?_concat] at ha
                    obtain rfl : 'n' = a := by simpa using ha
                    unfold numBoundary at hbound
                    rw [hb, hbig] at hbound
                    have hbound' : is_identifier_char b = false := by simpa using hbound
                    simp [hbound']
              · by_cases hid : identStart c = true
                · rw [lexLoop_ident f c rest line col hid, List.foldl_cons]
                  rw [goodLoop_ident f c rest hid] at hgood
                  have hconsi := takeIdent_cons c rest (identStart_cont c hid)
                  have happ := takeIdent_append (c :: rest)
                  have hne : (takeIdent (c :: rest)).1 ≠ [] := by rw [hconsi]; simp
                  have hfragval : token_fragment
                      ((find_match (takeIdent (c :: rest)).1).getD
                        (Token.Identifier (takeIdent (c :: rest)).1))
                      = some (takeIdent (c :: rest)).1 := by
                    cases hfm : find_match (takeIdent (c :: rest)).1 with
                    | none => rfl
                    | some t =>
                      simp only [Option.getD_some]
                      exact matchTable_fragment _ (find_match_mem hfm)
                  have hsepentry : acc = [] ∨
                      needs_separator acc (takeIdent (c :: rest)).1 = false := by
                    cases hacc : acc.getLast? with
                    | none => exact Or.inl (List.getLast?_eq_none_iff.mp hacc)
                    | some a =>
                      have h := hfuse a c hacc rfl
                      have hida : is_identifier_char a = false := by
                        cases hia : is_identifier_char a
                        · rfl
                        · rw [hia, identStart_id c hid] at h
                          cases h
                      exact Or.inr (needs_separator_false_left acc _ a hacc hida)
                  rw [renderStep_eq acc
                    ⟨(find_match (takeIdent (c :: rest)).1).getD
                      (Token.Identifier (takeIdent (c :: rest)).1), line, col⟩
                    (takeIdent (c :: rest)).1 hfragval hsepentry]
                  have hlen2 : (takeIdent (c :: rest)).2.length < f := by
                    have hl := congrArg List.length happ
                    have h1 : 1 ≤ (takeIdent (c :: rest)).1.length := by rw [hconsi]; simp
                    simp only [List.length_append, List.length_cons] at hl
                    simp only [List.length_cons] at hlen
                    omega
                  rw [ih _ line _ (acc ++ (takeIdent (c :: rest)).1) hlen2 hgood ?_]
                  · rw [List.append_assoc, happ]
                  · apply fuse_shift hne
                    intro a b ha hb
                    have := takeIdent_rest (c :: rest) b hb
                    rw [identCont_eq] at this
                    simp [this]
                · have hws' : rustIsWhitespace c = false := by simpa using hws
                  have hdig' : is_ascii_digit c = false := by simpa using hdig
                  have hid' : identStart c = false := by simpa using hid
                  rw [lexLoop_op f c rest line col hws' hsl hbl hq hdig' hid']
                  rw [goodLoop_op f c rest hws' hsl hbl hq hdig' hid'] at hgood
                  cases hop : tryMatchOp ((c :: rest).take 4) with
                  | none =>
                    rw [hop] at hgood
                    exact Bool.noConfusion hgood
                  | some tl =>
                    obtain ⟨t, len⟩ := tl
                    rw [hop] at hgood
                    have hgood' : goodLoop f ((c :: rest).drop len) = true := hgood
                    show List.foldl renderStep acc
                      (⟨t, line, col⟩ :: lexLoop f ((c :: rest).drop len)
                        (advancePos ((c :: rest).take len) line col).1
                        (advancePos ((c :: rest).take len) line col).2) = acc ++ c :: rest
                    obtain ⟨hl1, hl4, hfind⟩ := tryMatchOp_spec hop
                    rw [List.take_take] at hfind
                    have hmin : len ⊓ 4 = len := by
                      simp only [List.length_take, List.length_cons] at hl4
                      omega
                    rw [hmin] at hfind
                    have hmem := find_match_mem hfind
                    have hfrag := matchTable_fragment _ hmem
                    obtain ⟨lm, rfl⟩ : ∃ lm, len = lm + 1 := ⟨len - 1, by omega⟩
                    have hkey : (c :: rest).take (lm + 1) = c :: rest.take lm :=
                      List.take_succ_cons
                    have hidc : is_identifier_char c = false := not_id_of_not_start c hid' hdig'
                    rw [List.foldl_cons,
                      renderStep_eq acc ⟨t, line, col⟩ ((c :: rest).take (lm + 1)) hfrag
                        (Or.inr (needs_separator_false_right acc _ c (by rw [hkey]; rfl)
                          (Or.inr hidc)))]
                    have hlen2 : ((c :: rest).drop (lm + 1)).length < f := by
                      rw [List.drop_succ_cons, List.length_drop]
                      omega
                    rw [ih _ (advancePos ((c :: rest).take (lm + 1)) line col).1
                      (advancePos ((c :: rest).take (lm + 1)) line col).2
                      (acc ++ (c :: rest).take (lm + 1)) hlen2 hgood' ?_]
                    · rw [List.append_assoc, List.take_append_drop]
                    · apply fuse_shift (by rw [hkey]; simp)
                      intro a b ha hb
                      have hlastkey := matchTable_last _ hmem
                      simp only at hlastkey
                      rcases hlastkey with hbad | hgd
                      · rw [hkey] at hbad
                        simp only [List.headD_cons] at hbad
                        rw [hbad] at hid'
                        cases hid'
                      · rw [List.getLastD_eq_getLast?, ha] at hgd
                        simp only [Option.getD_some] at hgd
                        simp [hgd]

/-! ### Support lemmas for the remaining claims -/

theorem lexLoop_nil_pos (f : Nat) (l c : Nat) (h : 1 ≤ f) :
    lexLoop f [] l c = [⟨Token.Eof, l, c⟩] := by
  cases f with
  | zero => omega
  | succ f => rfl

theorem takeStr_unterminated (q : Char) (cs : List Char) :
    ∀ (esc : Bool) (li co : Nat), unterminated q cs esc = true →
      (takeStr q cs esc li co).1 = unescapedText cs esc ∧
      (takeStr q cs esc li co).2.1 = [] := by
  induction cs with
  | nil => intro esc li co _; exact ⟨rfl, rfl⟩
  | cons c cs ih =>
    intro esc li co h
    by_cases he : esc = true
    · subst he
      have h' : unterminated q cs false = true := by simpa [unterminated] using h
      refine ⟨?_, ?_⟩
      · simp [takeStr, unescapedText, (ih false li (co + 1) h').1]
      · simp [takeStr, (ih false li (co + 1) h').2]
    · have he' : esc = false := by simpa using he
      subst he'
      by_cases hb : c = '\\'
      · subst hb
        have h' : unterminated q cs true = true := by simpa [unterminated] using h
        refine ⟨?_, ?_⟩
        · simp [takeStr, unescapedText, (ih true li (co + 1) h').1]
        · simp [takeStr, (ih true li (co + 1) h').2]
      · by_cases hcq : c = q
        · exfalso
          subst hcq
          rw [show unterminated c (c :: cs) false = false from by simp [unterminated, hb]] at h
          exact Bool.noConfusion h
        · have h' : unterminated q cs false = true := by
            simpa [unterminated, hb, hcq] using h
          by_cases hn : c = '\n'
          · subst hn
            refine ⟨?_, ?_⟩
            · simp [takeStr, hb, hcq, unescapedText, (ih false (li + 1) 1 h').1]
            · simp [takeStr, hb, hcq, (ih false (li + 1) 1 h').2]
          · refine ⟨?_, ?_⟩
            · simp [takeStr, hb, hcq, hn, unescapedText, (ih false li (co + 1) h').1]
            · simp [takeStr, hb, hcq, hn, (ih false li (co + 1) h').2]

theorem takeNum_digits (ds : List Char) (h : ∀ c ∈ ds, is_ascii_digit c = true) :
    takeNum (ds ++ ['n']) false = (ds, true, []) := by
  induction ds with
  | nil => rfl
  | cons d ds ih =>
    have hd := h d (List.mem_cons_self _ _)
    rw [List.cons_append, takeNum_cons_digit d _ false hd,
      ih (fun c hc => h c (List.mem_cons_of_mem _ hc))]

/-! ### Claim theorems -/

/-- C9: scanning the empty string returns exactly one token, the end-of-file
sentinel at line 1, column 1. -/
theorem claim_C9_empty_input : lex ("".toList) = [⟨Token.Eof, 1, 1⟩] := rfl

/-- C4: the scanner performs longest-match operator scanning: `"**="` is one
compound-assignment token and `"=>"` is one arrow token, each followed only
by the end-of-file sentinel. -/
theorem claim_C4_longest_match :
    lex ("**=".toList) = [⟨Token.AsteriskAsteriskEquals, 1, 1⟩, ⟨Token.Eof, 1, 4⟩] ∧
    lex ("=>".toList) = [⟨Token.EqualsGreaterThan, 1, 1⟩, ⟨Token.Eof, 1, 3⟩] := ⟨rfl, rfl⟩

/-- C5: multi-line comments track nesting depth: `"/* a /* b */ c */"` scans
to exactly one multi-line-comment trivia token whose payload is the entire
input, followed only by the end-of-file token. -/
theorem claim_C5_nested_comment :
    lex ("/* a /* b */ c */".toList)
      = [⟨Token.MultiLineCommentTrivia ("/* a /* b */ c */".toList), 1, 1⟩,
         ⟨Token.Eof, 1, 15⟩] := rfl

/-- C2 (code bug): the end-of-file token of `scan "/**/"` carries column 4,
while the claim's arithmetic (1 + number of code points consumed after the
last newline, here 1 + 4) requires column 5: the block-comment loop advances
the column by only one when `*/` consumes two characters. -/
theorem claim_C2_eof_position_bug :
    lex ("/**/".toList)
      = [⟨Token.MultiLineCommentTrivia ("/**/".toList), 1, 1⟩, ⟨Token.Eof, 1, 4⟩] ∧
    1 + ("/**/".toList).length = 5 := ⟨rfl, rfl⟩

/-- C3 (code bug): `canonical_fragment` maps `True`, `LessThanSlash` and
`LessThanLessThan` to `"true"`, `"</"` and `"<<"`, but `classify` does not
recognize those spellings, so `classify (canonical_fragment k) = some k`
fails for them — contradicting the repository's own tests, which expect
`Token::True` for `"true"` and `Token::LessThanSlash` for `"</"`. -/
theorem claim_C3_classify_fragment_bug :
    token_fragment Token.True = some ("true".toList) ∧ find_match ("true".toList) = none ∧
    token_fragment Token.LessThanSlash = some ("</".toList) ∧
    find_match ("</".toList) = none ∧
    token_fragment Token.LessThanLessThan = some ("<<".toList) ∧
    find_match ("<<".toList) = none :=
  ⟨rfl, rfl, rfl, rfl, rfl, rfl⟩

/-- C1 (counterexample): the input `''` contains no illegal characters (its
scan yields no illegal token), yet rendering its scan yields `""`, not the
original text — the renderer always re-quotes string literals with double
quotes. -/
theorem claim_C1_roundtrip_cex :
    (∀ st ∈ lex ("''".toList), isIllegal st.value = false) ∧
    tokens_to_source (lex ("''".toList)) ≠ ("''".toList) := by
  refine ⟨by decide, by decide⟩

/-- C1 (amended): for every source text accepted by `goodSource` — no
illegal characters, every string literal double-quoted, terminated, and
rendering back verbatim (only the six recognized escapes, every unescaped
character printable ASCII other than backslash and quotes), and no
numeric/BigInt literal immediately followed by an identifier-class
character — rendering the scan reproduces the source exactly. -/
theorem claim_C1_roundtrip_amended (s : List Char) (h : goodSource s = true) :
    tokens_to_source (lex s) = s := by
  unfold tokens_to_source lex
  exact renderLoop_good (s.length + 1) s 1 1 [] (by omega) h
    (by intro a b ha _; simp at ha)

/-- Witness for the amended C1 at a concrete program text. -/
theorem claim_C1_roundtrip_amended_witness :
    goodSource ("let x = 1; // hi\n/* blk */ foo+42".toList) = true ∧
    tokens_to_source (lex ("let x = 1; // hi\n/* blk */ foo+42".toList))
      = ("let x = 1; // hi\n/* blk */ foo+42".toList) :=
  ⟨by decide, claim_C1_roundtrip_amended _ (by decide)⟩

/-- C6 (counterexample): the renderer's escaping does not pass every
non-special character through unchanged: the NUL character is rendered as
the six characters `\u{0}`. -/
theorem claim_C6_escape_cex :
    escape_string [Char.ofNat 0] ≠ [Char.ofNat 0] := by decide

/-- C6 (amended): the renderer's escaping inverts the scanner's unescaping
exactly for the six recognized escapes, and passes every other *printable
ASCII* character through unchanged; remaining characters are rendered as
`\u{...}` escapes instead of being passed through. -/
theorem claim_C6_escape_amended : ∀ c : Char,
    (c = '\n' → escape_string [c] = ['\\', 'n'] ∧ unescapeChar 'n' = c) ∧
    (c = '\t' → escape_string [c] = ['\\', 't'] ∧ unescapeChar 't' = c) ∧
    (c = '\r' → escape_string [c] = ['\\', 'r'] ∧ unescapeChar 'r' = c) ∧
    (c = '\\' → escape_string [c] = ['\\', '\\'] ∧ unescapeChar '\\' = c) ∧
    (c = '"' → escape_string [c] = ['\\', '"'] ∧ unescapeChar '"' = c) ∧
    (c = '\'' → escape_string [c] = ['\\', '\''] ∧ unescapeChar '\'' = c) ∧
    (c ≠ '\n' → c ≠ '\t' → c ≠ '\r' → c ≠ '\\' → c ≠ '"' → c ≠ '\'' →
      0x20 ≤ c.toNat → c.toNat ≤ 0x7e → escape_string [c] = [c]) ∧
    (c ≠ '\n' → c ≠ '\t' → c ≠ '\r' → c ≠ '\\' → c ≠ '"' → c ≠ '\'' →
      ¬(0x20 ≤ c.toNat ∧ c.toNat ≤ 0x7e) →
      escape_string [c]
        = '\\' :: 'u' :: '\x7b' :: (Nat.toDigits 16 c.toNat ++ ['\x7d'])) := by
  intro c
  refine ⟨fun h => by subst h; exact ⟨rfl, rfl⟩, fun h => by subst h; exact ⟨rfl, rfl⟩,
    fun h => by subst h; exact ⟨rfl, rfl⟩, fun h => by subst h; exact ⟨rfl, rfl⟩,
    fun h => by subst h; exact ⟨rfl, rfl⟩, fun h => by subst h; exact ⟨rfl, rfl⟩,
    fun h1 h2 h3 h4 h5 h6 h7 h8 => ?_, fun h1 h2 h3 h4 h5 h6 h9 => ?_⟩
  · rw [escape_string_cons, escape_string_nil, List.append_nil]
    unfold escape_default
    rw [if_neg h2, if_neg h3, if_neg h1, if_neg (by tauto), if_pos ⟨h7, h8⟩]
  · rw [escape_string_cons, escape_string_nil, List.append_nil]
    unfold escape_default
    rw [if_neg h2, if_neg h3, if_neg h1, if_neg (by tauto), if_neg h9]

/-- Witness for the amended C6: the newline inversion, a plain character
passing through, and a control character rendered as a brace-delimited
unicode escape. -/
theorem claim_C6_escape_amended_witness :
    escape_string ['\n'] = ['\\', 'n'] ∧ escape_string ['a'] = ['a'] ∧
    escape_string [Char.ofNat 1]
      = '\\' :: 'u' :: '\x7b' :: (Nat.toDigits 16 (Char.ofNat 1).toNat ++ ['\x7d']) :=
  ⟨((claim_C6_escape_amended '\n').1 rfl).1,
   (claim_C6_escape_amended 'a').2.2.2.2.2.2.1 (by decide) (by decide) (by decide)
     (by decide) (by decide) (by decide) (by decide) (by decide),
   (claim_C6_escape_amended (Char.ofNat 1)).2.2.2.2.2.2.2 (by decide) (by decide) (by decide)
     (by decide) (by decide) (by decide) (by decide)⟩

/-- C7: an input that opens a string literal (with `"` or `'`) and has no
matching unescaped closing delimiter before end of input scans to a single
string-literal token whose payload is the unescaped remaining text, with no
illegal token, followed only by the end-of-file token. -/
theorem claim_C7_unterminated_string (q : Char) (rest : List Char)
    (hq : q = '"' ∨ q = '\'') (hu : unterminated q rest false = true) :
    ∃ line col,
      lex (q :: rest)
        = [⟨Token.StringLiteral (unescapedText rest false), 1, 1⟩, ⟨Token.Eof, line, col⟩] ∧
      ∀ st ∈ lex (q :: rest), isIllegal st.value = false := by
  have hts := takeStr_unterminated q rest false 1 (1 + 1) hu
  have hlex : lex (q :: rest)
      = [⟨Token.StringLiteral (unescapedText rest false), 1, 1⟩,
         ⟨Token.Eof, (takeStr q rest false 1 (1 + 1)).2.2.1,
           (takeStr q rest false 1 (1 + 1)).2.2.2⟩] := by
    unfold lex
    simp only [List.length_cons]
    rw [lexLoop_string (rest.length + 1) q rest 1 1 hq]
    rw [hts.1, hts.2, lexLoop_nil_pos (rest.length + 1) _ _ (by omega)]
  refine ⟨_, _, hlex, ?_⟩
  intro st hst
  rw [hlex] at hst
  simp only [List.mem_cons, List.not_mem_nil, or_false] at hst
  rcases hst with rfl | rfl <;> rfl

/-- Witness for C7 at the concrete unterminated input `"ab`. -/
theorem claim_C7_unterminated_string_witness :
    ∃ line col,
      lex ('"' :: "ab".toList)
        = [⟨Token.StringLiteral (unescapedText ("ab".toList) false), 1, 1⟩,
           ⟨Token.Eof, line, col⟩] ∧
      ∀ st ∈ lex ('"' :: "ab".toList), isIllegal st.value = false :=
  claim_C7_unterminated_string '"' ("ab".toList) (Or.inl rfl) (by decide)

/-- C8: the renderer inserts a single separating space before a fragment
exactly when the accumulated output is non-empty, the fragment does not
start with whitespace, the accumulated output does not end with whitespace,
and the output's last non-whitespace character and the fragment's first
character are both identifier-class (`sepSpec` transcribes the claim's
wording); moreover rendering `[foo][bar]` yields `"foo bar"` and
`[foo][+][42]` yields `"foo+42"`. -/
theorem claim_C8_separator :
    (∀ acc fragment : List Char,
      (!acc.isEmpty && needs_separator acc fragment) = sepSpec acc fragment) ∧
    tokens_to_source [⟨Token.Identifier ("foo".toList), 1, 1⟩,
      ⟨Token.Identifier ("bar".toList), 1, 5⟩] = ("foo bar".toList) ∧
    tokens_to_source [⟨Token.Identifier ("foo".toList), 1, 1⟩, ⟨Token.Plus, 1, 4⟩,
      ⟨Token.NumericLiteral ("42".toList), 1, 5⟩] = ("foo+42".toList) := by
  refine ⟨?_, rfl, rfl⟩
  intro acc frag
  by_cases hA : ((acc.getLast?.map rustIsWhitespace).getD false) = true
  · unfold needs_separator sepSpec
    rw [if_pos hA, hA]
    simp
  · have hAf : ((acc.getLast?.map rustIsWhitespace).getD false) = false := by simpa using hA
    by_cases hB : ((frag.head?.map rustIsWhitespace).getD false) = true
    · unfold needs_separator sepSpec
      rw [if_neg hA, if_pos hB, hB]
      simp
    · have hBf : ((frag.head?.map rustIsWhitespace).getD false) = false := by simpa using hB
      unfold needs_separator sepSpec
      rw [if_neg hA, if_neg hB, hAf, hBf]
      have hfind : frag.find? (fun c => !rustIsWhitespace c) = frag.head? := by
        cases hh : frag.head? with
        | none =>
          rw [List.head?_eq_none_iff.mp hh]
          rfl
        | some b =>
          refine find?_eq_head?_of_not_ws hh ?_
          rw [hh] at hBf
          simpa using hBf
      rw [hfind]
      simp

/-- C10: the BigInt `n` suffix is consumed only when the numeric literal has
no decimal point: `"1.5n"` scans to a numeric literal `"1.5"` followed by
the identifier `"n"`, while any nonempty all-digit run followed by `n` scans
to a single BigInt literal whose payload excludes the `n`. -/
theorem claim_C10_bigint_suffix :
    lex ("1.5n".toList)
      = [⟨Token.NumericLiteral ("1.5".toList), 1, 1⟩, ⟨Token.Identifier ("n".toList), 1, 4⟩,
         ⟨Token.Eof, 1, 5⟩] ∧
    ∀ ds : List Char, ds ≠ [] → (∀ c ∈ ds, is_ascii_digit c = true) →
      lex (ds ++ ['n']) = [⟨Token.BigIntLiteral ds, 1, 1⟩, ⟨Token.Eof, 1, ds.length + 2⟩] := by
  refine ⟨rfl, ?_⟩
  intro ds hne hdig
  obtain ⟨d, ds', rfl⟩ : ∃ d ds', ds = d :: ds' := by
    cases ds with
    | nil => exact absurd rfl hne
    | cons d t => exact ⟨d, t, rfl⟩
  have hnum : takeNum (d :: (ds' ++ ['n'])) false = (d :: ds', true, []) := by
    rw [← List.cons_append]
    exact takeNum_digits (d :: ds') hdig
  have hlen : ((d :: ds') ++ ['n']).length + 1 = (ds'.length + 2) + 1 := by simp
  unfold lex
  rw [hlen, List.cons_append,
    lexLoop_digit_true (ds'.length + 2) d (ds' ++ ['n']) 1 1
      (hdig d (List.mem_cons_self _ _)) (by rw [hnum])]
  rw [hnum]
  simp only [List.length_cons]
  rw [lexLoop_nil_pos (ds'.length + 2) _ _ (by omega)]
  simp only [List.cons.injEq, SpannedToken.mk.injEq, List.length_cons, and_true, true_and]
  omega

/-- Witness for C10's universal part at the digit run `123`. -/
theorem claim_C10_bigint_suffix_witness :
    lex ("123".toList ++ ['n'])
      = [⟨Token.BigIntLiteral ("123".toList), 1, 1⟩,
         ⟨Token.Eof, 1, ("123".toList).length + 2⟩] :=
  claim_C10_bigint_suffix.2 ("123".toList) (by decide) (by decide)
